import Mathlib

/-!
Shallow embedding of the IESO market-data pipeline
(`src/hourly_processor.py`, `src/interval_processor.py`).

Tables (pandas `DataFrame`s) are modelled as a header (list of column
names, order significant) together with a list of rows (lists of cell
values).  Cell values are strings, rational numbers, or `nan` (the value
pandas fills in when `concat` aligns frames with differing columns).
Timestamps (`pd.Timestamp`) are modelled as rational numbers of days;
`pd.to_datetime` applied to an already-parsed timestamp is the identity,
and `.dt.normalize()` (strip time-of-day) is the floor.

A Python function that can raise an exception (pandas `KeyError` on a
missing column, `TypeError` on taking a mean of non-numeric data) is
embedded as an `Option`-valued function, `none` meaning the call raised.
-/

namespace Ieso

/-- Cell value of a table: a string, a rational (numbers and timestamps
alike), or `nan` (pandas missing-data marker). -/
inductive Val where
  | str (s : String)
  | num (q : ℚ)
  | nan
deriving DecidableEq, Repr

/-- A pandas `DataFrame`: ordered column names plus rows of cells.
Well-formed frames have every row of the same length as the header;
cell access out of range returns a default (never observed on
well-formed data). -/
structure Table where
  header : List String
  rows   : List (List Val)
deriving DecidableEq, Repr

/-! Kernel-computable rational arithmetic.  Mathlib's `Rat` addition,
division and floor are opaque to kernel reduction (their normalization
step blocks `decide`), so the embedding builds its rational results
directly with the `Rat.mk'` constructor, normalizing with `Nat.gcd`;
the theorems `qadd_eq`, `qsum_eq`, `qdivNat_eq`, `qfloor_eq` and
`qofInt_eq` below identify these operations with the field operations
on `ℚ`, so nothing is changed semantically. -/

/-- Normalized rational `n / d` for `d ≠ 0`, built by constructor. -/
def qmk (n : ℤ) (d : ℕ) (hd : d ≠ 0) : ℚ :=
  ⟨n.tdiv (n.natAbs.gcd d), d / n.natAbs.gcd d,
   by
     have hg : 0 < n.natAbs.gcd d :=
       Nat.gcd_pos_of_pos_right _ (Nat.pos_of_ne_zero hd)
     exact Nat.pos_iff_ne_zero.mp
       (Nat.div_pos (Nat.le_of_dvd (Nat.pos_of_ne_zero hd) (Nat.gcd_dvd_right _ _)) hg),
   by
     have hg : 0 < n.natAbs.gcd d :=
       Nat.gcd_pos_of_pos_right _ (Nat.pos_of_ne_zero hd)
     rw [Int.natAbs_tdiv, Int.natAbs_ofNat]
     show ((n.natAbs / n.natAbs.gcd d).Coprime (d / n.natAbs.gcd d))
     exact Nat.coprime_div_gcd_div_gcd hg⟩

/-- Kernel-computable addition on `ℚ`. -/
def qadd (a b : ℚ) : ℚ :=
  qmk (a.num * b.den + b.num * a.den) (a.den * b.den)
    (Nat.mul_ne_zero a.den_nz b.den_nz)

/-- Kernel-computable sum of a list of rationals. -/
def qsum : List ℚ → ℚ
  | [] => 0
  | q :: l => qadd q (qsum l)

/-- Kernel-computable division of a rational by a natural number
(zero divisor yields zero, as `ℚ` division does). -/
def qdivNat (a : ℚ) (n : ℕ) : ℚ :=
  if h : n = 0 then 0
  else qmk a.num (a.den * n) (Nat.mul_ne_zero a.den_nz h)

/-- Kernel-computable floor of a rational. -/
def qfloor (q : ℚ) : ℤ :=
  q.num / q.den

/-- Kernel-computable embedding of an integer into `ℚ`. -/
def qofInt (z : ℤ) : ℚ :=
  ⟨z, 1, Nat.one_ne_zero, Nat.coprime_one_right _⟩

/-- Index of the first column named `c` (pandas label lookup). -/
def idxOf? (c : String) : List String → Option Nat
  | [] => none
  | h :: t => if h = c then some 0 else (idxOf? c t).map (· + 1)

/-- Position of column `c` in table `t`, if present. -/
def colIdx (t : Table) (c : String) : Option Nat :=
  idxOf? c t.header

/-- Cell of a row at position `i` (default on out-of-range, which does
not occur on well-formed data). -/
def getCell (r : List Val) (i : Nat) : Val :=
  r.getD i (Val.num 0)

/-- Sequence a fallible function over a list, failing if any element
fails (the embedding of a chain of pandas operations each of which may
raise). -/
def mapOption (f : α → Option β) : List α → Option (List β)
  | [] => some []
  | a :: l =>
    match f a, mapOption f l with
    | some b, some bs => some (b :: bs)
    | _, _ => none

/-- Column `c` of `t` as a list of values (`df[c]`), if the column
exists. -/
def colVals (t : Table) (c : String) : Option (List Val) :=
  (colIdx t c).map fun i => t.rows.map fun r => getCell r i

/-- Cell of `t` at column `c`, row `j` (`df[c].iloc[j]` on a
default-indexed frame). -/
def cellAt (t : Table) (c : String) (j : Nat) : Option Val :=
  (colIdx t c).map fun i => getCell (t.rows.getD j []) i

/-- Column selection / reordering `df[cols]`: raises (`none`) if any
requested column is absent — this is the `KeyError` behind the spec's
SchemaMismatch. -/
def selectCols (cols : List String) (t : Table) : Option Table :=
  (mapOption (colIdx t) cols).map fun idxs =>
    ⟨cols, t.rows.map fun r => idxs.map (getCell r)⟩

/-- Column renaming `df.rename(columns=dict(m))`: labels not present in
the frame are silently ignored, labels of the frame not in `m` pass
through unchanged.  Never raises. -/
def rename (m : List (String × String)) (t : Table) : Table :=
  ⟨t.header.map fun h =>
      match m.find? (fun p => p.1 = h) with
      | some p => p.2
      | none => h,
   t.rows⟩

/-- In-place column transformation `df[c] = f(df[c])`: raises (`none`)
if the column is absent. -/
def mapCol (c : String) (f : Val → Val) (t : Table) : Option Table :=
  (colIdx t c).map fun i =>
    ⟨t.header, t.rows.map fun r => r.set i (f (getCell r i))⟩

/-- Column removal `df.drop(columns=c)`: raises (`none`) if the column
is absent. -/
def dropCol (t : Table) (c : String) : Option Table :=
  (colIdx t c).map fun i =>
    ⟨t.header.eraseIdx i, t.rows.map fun r => r.eraseIdx i⟩

/-- Positions and names of the columns of `t` that are not join keys
(the columns the right frame contributes to a merge). -/
def nonKeyIdx (keys : List String) (t : Table) : List (Nat × String) :=
  t.header.enum.filter fun p => !(keys.contains p.2)

/-- Inner join `pd.merge(t1, t2, on=keys, how='inner')`: output columns
are `t1`'s columns followed by `t2`'s non-key columns; output rows pair
every `t1` row with every `t2` row agreeing on all key columns,
preserving left order.  Raises (`none`) if either frame lacks a key
column.  (The pipeline's renaming makes non-key columns disjoint, so no
suffixing is modelled.) -/
def merge (keys : List String) (t1 t2 : Table) : Option Table :=
  match mapOption (colIdx t1) keys, mapOption (colIdx t2) keys with
  | some i1, some i2 =>
    some ⟨t1.header ++ (nonKeyIdx keys t2).map (·.2),
          t1.rows.flatMap fun r1 =>
            (t2.rows.filter fun r2 =>
                decide (i1.map (getCell r1) = i2.map (getCell r2))).map
              fun r2 => r1 ++ (nonKeyIdx keys t2).map fun p => getCell r2 p.1⟩
  | _, _ => none

/-- Numeric content of a cell, if it is numeric. -/
def numOf : Val → Option ℚ
  | .num q => some q
  | _ => none

/-- Arithmetic mean of a list of cells; raises (`none`) on non-numeric
data, as pandas `mean` does.  (`qdivNat (qsum qs) qs.length` is
`qs.sum / qs.length`, see `qsum_eq` and `qdivNat_eq`.) -/
def meanVal (vs : List Val) : Option Val :=
  (mapOption numOf vs).map fun qs => Val.num (qdivNat (qsum qs) qs.length)

/-- Deduplication keeping the first occurrence of each element not yet
seen (`acc` holds the elements already emitted). -/
def firstDedupAcc [DecidableEq α] (acc : List α) : List α → List α
  | [] => []
  | a :: l =>
    if a ∈ acc then firstDedupAcc acc l
    else a :: firstDedupAcc (a :: acc) l

/-- Deduplication keeping the first occurrence of each element.  (pandas
`groupby(sort=True)` sorts group keys; none of the properties below
depend on group order, and first-occurrence order is used here.) -/
def firstDedup [DecidableEq α] (l : List α) : List α :=
  firstDedupAcc [] l

/-- Grouped mean `df.groupby(keys).mean().reset_index()`: one output row
per distinct key tuple, key columns first, every remaining column
replaced by its per-group arithmetic mean.  Raises (`none`) if a key
column is absent or a non-key column holds non-numeric data. -/
def groupbyMean (keys : List String) (t : Table) : Option Table :=
  match mapOption (colIdx t) keys with
  | none => none
  | some ki =>
    let other := t.header.enum.filter fun p => !(keys.contains p.2)
    let keyOf := fun r : List Val => ki.map (getCell r)
    let gks := firstDedup (t.rows.map keyOf)
    match mapOption (fun k =>
        (mapOption (fun p : Nat × String =>
            meanVal ((t.rows.filter fun r => decide (keyOf r = k)).map
              fun r => getCell r p.1)) other).map fun ms => k ++ ms) gks with
    | some rows => some ⟨keys ++ other.map (·.2), rows⟩
    | none => none

/-- Value of column `c` in row `r` of frame `t`, `nan` when `t` has no
such column (how `pd.concat` aligns frames by column name). -/
def fetchVal (t : Table) (r : List Val) (c : String) : Val :=
  match colIdx t c with
  | some i => getCell r i
  | none => Val.nan

/-- Row-wise concatenation `pd.concat([t1, t2], axis=0)`: columns are
aligned by name (union, first frame's order first), cells missing from
a frame are filled with `nan`. -/
def pdConcat (t1 t2 : Table) : Table :=
  let header := t1.header ++ t2.header.filter fun c => !(t1.header.contains c)
  ⟨header,
   t1.rows.map (fun r => header.map (fetchVal t1 r)) ++
   t2.rows.map (fun r => header.map (fetchVal t2 r))⟩

/-- Column assignment `df[c] = vs`, used with a value list of matching
length: overwrites an existing column or appends a new one at the end. -/
def setColAll (t : Table) (c : String) (vs : List Val) : Table :=
  match colIdx t c with
  | some i => ⟨t.header, (t.rows.zip vs).map fun p => p.1.set i p.2⟩
  | none => ⟨t.header ++ [c], (t.rows.zip vs).map fun p => p.1 ++ [p.2]⟩

/-- Interval labels `np.tile(range(1, 13), ...)`: one hour's worth of
5-minute interval numbers, 1 to 12. -/
def intervalBlock : List Val :=
  [Val.num 1, Val.num 2, Val.num 3, Val.num 4, Val.num 5, Val.num 6,
   Val.num 7, Val.num 8, Val.num 9, Val.num 10, Val.num 11, Val.num 12]

/-- Interval Expander (`interval_processor.expand_to_intervals`, lines
10-16): `df.loc[df.index.repeat(12)]` repeats each row 12 times
consecutively (default integer index), and
`np.tile(range(1, 13), len(df))` assigns Interval 1..12 within each
block. -/
def expand_to_intervals (t : Table) : Table :=
  setColAll ⟨t.header, t.rows.flatMap fun r => List.replicate 12 r⟩
    "Interval" ((List.replicate t.rows.length intervalBlock).flatten)

/-- Metric columns of the Energy market type
(`col_to_rename` in both processors' energy functions). -/
def energyMetrics : List String :=
  ["LMP", "Energy Loss Price", "Energy Congestion Price"]

/-- Metric columns of the Operating Reserve market type
(`col_to_rename` in both processors' OR functions). -/
def orMetrics : List String :=
  ["LMP 10S", "Congestion Price 10S", "LMP 10N", "Congestion Price 10N",
   "LMP 30R", "Congestion Price 30R"]

/-- Rename map suffixing each metric with its horizon tag
(`{col: f"{col}_{horizon}" for col in col_to_rename}`). -/
def horizonRen (cols : List String) (suf : String) : List (String × String) :=
  cols.map fun c => (c, c ++ suf)

/-- Join keys of the hourly pipeline and grouping keys of the
Granularity Aggregator. -/
def hourlyKeys : List String :=
  ["Pricing Location", "Date", "Delivery Hour"]

/-- Join keys of the interval pipeline. -/
def intervalKeys : List String :=
  ["Pricing Location", "Date", "Delivery Hour", "Interval"]

/-- Timestamp parsing `pd.to_datetime` on an already-parsed timestamp
column: the identity (timestamps are modelled as parsed from the start). -/
def toDatetime (v : Val) : Val := v

/-- Granularity Aggregator
(`.groupby(['Pricing Location','Date','Delivery Hour']).mean()
.reset_index().drop(columns='Interval')`, hourly_processor lines
27-31 / 86-90). -/
def granularity_aggregate (t : Table) : Option Table := do
  let g ← groupbyMean hourlyKeys t
  dropCol g "Interval"

/-- DELIVERY_HOUR drift fix (hourly_processor lines 106-107,
interval_processor lines 108-109): rename the uppercase/underscored
hour column to the canonical key name when present. -/
def fixDeliveryHour (t : Table) : Table :=
  if "DELIVERY_HOUR" ∈ t.header then
    rename [("DELIVERY_HOUR", "Delivery Hour")] t
  else t

/-- Hourly energy pipeline (`hourly_processor.create_hourly_energy_data`,
lines 9-63): aggregate Real-Time to hourly, suffix each horizon's
metric columns, parse dates, then two inner joins. -/
def create_hourly_energy_data
    (energy_day_ahead_df energy_pre_dispatch_df energy_real_time_df : Table) :
    Option Table := do
  let rt0 ← granularity_aggregate energy_real_time_df
  let rt1 := rename (horizonRen energyMetrics "_Real_Time") rt0
  let energy_real_time_hourly_df ← mapCol "Date" toDatetime rt1
  let da1 := rename (horizonRen energyMetrics "_Day_Ahead") energy_day_ahead_df
  let da2 ← mapCol "Date" toDatetime da1
  let pd1 := rename (horizonRen energyMetrics "_Pre_Dispatch") energy_pre_dispatch_df
  let pd2 ← mapCol "Date" toDatetime pd1
  let hourly_energy_df1 ← merge hourlyKeys da2 pd2
  merge hourlyKeys hourly_energy_df1 energy_real_time_hourly_df

/-- Hourly Operating Reserve pipeline
(`hourly_processor.create_hourly_OR_data`, lines 67-125): as the energy
pipeline, plus the DELIVERY_HOUR drift fix on Pre-Dispatch. -/
def create_hourly_OR_data
    (or_day_ahead_df or_pre_dispatch_df or_real_time_df : Table) :
    Option Table := do
  let rt0 ← granularity_aggregate or_real_time_df
  let rt1 := rename (horizonRen orMetrics "_Real_Time") rt0
  let or_real_time_hourly_df ← mapCol "Date" toDatetime rt1
  let da1 := rename (horizonRen orMetrics "_Day_Ahead") or_day_ahead_df
  let da2 ← mapCol "Date" toDatetime da1
  let pd1 := rename (horizonRen orMetrics "_Pre_Dispatch") or_pre_dispatch_df
  let pd2 ← mapCol "Date" toDatetime pd1
  let pd3 := fixDeliveryHour pd2
  let hourly_or_df1 ← merge hourlyKeys da2 pd3
  merge hourlyKeys hourly_or_df1 or_real_time_hourly_df

/-- Interval energy pipeline
(`interval_processor.create_interval_energy_data`, lines 22-68): expand
Day-Ahead and Pre-Dispatch to 5-minute intervals, suffix metric
columns, parse dates, then two inner joins on the interval key. -/
def create_interval_energy_data
    (energy_day_ahead_df energy_pre_dispatch_df energy_real_time_df : Table) :
    Option Table := do
  let da1 := rename (horizonRen energyMetrics "_Day_Ahead") energy_day_ahead_df
  let da2 := expand_to_intervals da1
  let energy_day_ahead_interval_df ← mapCol "Date" toDatetime da2
  let pd1 := rename (horizonRen energyMetrics "_Pre_Dispatch") energy_pre_dispatch_df
  let pd2 := expand_to_intervals pd1
  let energy_pre_dispatch_interval_df ← mapCol "Date" toDatetime pd2
  let rt1 := rename (horizonRen energyMetrics "_Real_Time") energy_real_time_df
  let rt2 ← mapCol "Date" toDatetime rt1
  let interval_energy_df1 ←
    merge intervalKeys energy_day_ahead_interval_df energy_pre_dispatch_interval_df
  merge intervalKeys interval_energy_df1 rt2

/-- Interval Operating Reserve pipeline
(`interval_processor.create_interval_OR_data`, lines 72-127): expand
first, then rename and parse (note the order differs from the energy
variant), with the DELIVERY_HOUR drift fix on the expanded Pre-Dispatch
frame. -/
def create_interval_OR_data
    (or_day_ahead_df or_pre_dispatch_df or_real_time_df : Table) :
    Option Table := do
  let da1 := expand_to_intervals or_day_ahead_df
  let da2 := rename (horizonRen orMetrics "_Day_Ahead") da1
  let or_day_ahead_interval_df ← mapCol "Date" toDatetime da2
  let pd1 := expand_to_intervals or_pre_dispatch_df
  let pd2 := rename (horizonRen orMetrics "_Pre_Dispatch") pd1
  let pd3 ← mapCol "Date" toDatetime pd2
  let rt1 := rename (horizonRen orMetrics "_Real_Time") or_real_time_df
  let rt2 ← mapCol "Date" toDatetime rt1
  let or_pre_dispatch_interval_df := fixDeliveryHour pd3
  let inteval_or_df1 ←
    merge intervalKeys or_day_ahead_interval_df or_pre_dispatch_interval_df
  merge intervalKeys inteval_or_df1 rt2

/-- Timestamp normalization `.dt.normalize()` / `.normalize()`: strip
the time-of-day (floor to midnight).  Non-timestamp cells are
untouched (they do not occur in a Date column). -/
def normalizeVal : Val → Val
  | .num q => .num (qofInt (qfloor q))
  | v => v

/-- Result of one Historical Append Engine call: the dataset at the
storage location after the call, the caller's dataframe object after
the call (the engine assigns into it), and whether the Appended
transition was taken. -/
structure AppendState where
  stored   : Table
  caller   : Table
  appended : Bool
deriving DecidableEq, Repr

/-- Historical Append Engine core, shared shape of the four
`add_*_data` functions (hourly_processor lines 144-179 / 185-221,
interval_processor lines 144-179 / 185-219):
read the historical frame (`hist`), record the column list — from the
historical frame when `colsFromHist`, from the new frame in the
`add_interval_OR_data` variant — normalize the target date and both
Date columns (mutating the caller's frame), then either skip (date
already present; nothing persisted) or reorder the new day's columns,
concatenate, and persist.  (`sort_values` without `inplace` on line
172/215 discards its result and is not modelled.)  `none` models an
uncaught exception: nothing persisted. -/
def add_append_core (colsFromHist : Bool) (hist new : Table) (date_str : ℚ) :
    Option AppendState :=
  match mapCol "Date" normalizeVal new with
  | none => none
  | some new1 =>
    match mapCol "Date" normalizeVal hist with
    | none => none
    | some hist1 =>
      match colVals hist1 "Date" with
      | none => none
      | some histDates =>
        if Val.num (qofInt (qfloor date_str)) ∈ histDates then
          some ⟨hist, new1, false⟩
        else
          match selectCols (if colsFromHist then hist.header else new.header) new1 with
          | none => none
          | some sel => some ⟨pdConcat hist1 sel, new1, true⟩

/-- Append of hourly energy data
(`hourly_processor.add_hourly_energy_data`, lines 144-179); the stored
historical frame is the explicit first argument. -/
def add_hourly_energy_data (hist hourly_energy_df : Table) (date_str : ℚ) :
    Option AppendState :=
  add_append_core true hist hourly_energy_df date_str

/-- Append of hourly Operating Reserve data
(`hourly_processor.add_hourly_OR_data`, lines 185-221). -/
def add_hourly_OR_data (hist hourly_or_df : Table) (date_str : ℚ) :
    Option AppendState :=
  add_append_core true hist hourly_or_df date_str

/-- Append of interval energy data
(`interval_processor.add_interval_energy_data`, lines 144-179). -/
def add_interval_energy_data (hist interval_energy_df : Table) (date_str : ℚ) :
    Option AppendState :=
  add_append_core true hist interval_energy_df date_str

/-- Append of interval Operating Reserve data
(`interval_processor.add_interval_OR_data`, lines 185-219).  Note line
203: `or_interval_columns = interval_or_df.columns.tolist()` takes the
column list from the NEW frame, not the historical one. -/
def add_interval_OR_data (hist interval_or_df : Table) (date_str : ℚ) :
    Option AppendState :=
  add_append_core false hist interval_or_df date_str

/-- Boolean check that `new` is one date's data for target `d`: it has
a Date column, at least one row, and every Date cell is a timestamp of
that calendar date. -/
def sameDateDataB (new : Table) (d : ℚ) : Bool :=
  match colVals new "Date" with
  | some vs =>
    !vs.isEmpty && vs.all fun v =>
      match v with
      | .num q => decide (qfloor q = qfloor d)
      | _ => false
  | none => false

/-- Boolean well-formedness: every row has exactly one cell per header
column. -/
def wfB (t : Table) : Bool :=
  t.rows.all fun r => r.length == t.header.length

/-- Boolean distinctness of a list (used for headers and key tuples). -/
def nodupB [DecidableEq α] : List α → Bool
  | [] => true
  | a :: l => !(l.contains a) && nodupB l

/-! Concrete scenario tables used by the theorems below.  Timestamps
are day numbers; the calendar date 2025-05-03 is written as the day
number 20250503. -/

/-- Day-Ahead table of the end-to-end scenario: location A, hour 1,
date 2025-05-03, LMP 10. -/
def c6DA : Table :=
  ⟨["Pricing Location", "Delivery Hour", "Date", "LMP"],
   [[.str "A", .num 1, .num 20250503, .num 10]]⟩

/-- Pre-Dispatch table of the end-to-end scenario: LMP 11. -/
def c6PD : Table :=
  ⟨["Pricing Location", "Delivery Hour", "Date", "LMP"],
   [[.str "A", .num 1, .num 20250503, .num 11]]⟩

/-- Real-Time table of the end-to-end scenario: twelve 5-minute rows,
all with LMP 12. -/
def c6RT : Table :=
  ⟨["Pricing Location", "Date", "Delivery Hour", "Interval", "LMP"],
   [[.str "A", .num 20250503, .num 1, .num 1, .num 12],
    [.str "A", .num 20250503, .num 1, .num 2, .num 12],
    [.str "A", .num 20250503, .num 1, .num 3, .num 12],
    [.str "A", .num 20250503, .num 1, .num 4, .num 12],
    [.str "A", .num 20250503, .num 1, .num 5, .num 12],
    [.str "A", .num 20250503, .num 1, .num 6, .num 12],
    [.str "A", .num 20250503, .num 1, .num 7, .num 12],
    [.str "A", .num 20250503, .num 1, .num 8, .num 12],
    [.str "A", .num 20250503, .num 1, .num 9, .num 12],
    [.str "A", .num 20250503, .num 1, .num 10, .num 12],
    [.str "A", .num 20250503, .num 1, .num 11, .num 12],
    [.str "A", .num 20250503, .num 1, .num 12, .num 12]]⟩

/-- A historical dataset with columns Date, X and one row for day 3. -/
def c2hist : Table := ⟨["Date", "X"], [[.num 3, .num 7]]⟩

/-- A new-day table for day 4 missing the historical column X. -/
def c2new : Table := ⟨["Date"], [[.num 4]]⟩

/-- A new-day table for day 4 whose columns are a permutation of the
historical schema. -/
def c2perm : Table := ⟨["X", "Date"], [[.num 9, .num 4]]⟩

/-- A raw Day-Ahead table from which the expected metric column LMP is
absent (only Energy Loss Price is present). -/
def c7DA : Table :=
  ⟨["Pricing Location", "Delivery Hour", "Date", "Energy Loss Price"],
   [[.str "A", .num 1, .num 20250503, .num 3]]⟩

/-- Ordinary Pre-Dispatch table for the C7 scenario. -/
def c7PD : Table :=
  ⟨["Pricing Location", "Delivery Hour", "Date", "LMP"],
   [[.str "A", .num 1, .num 20250503, .num 11]]⟩

/-- Ordinary Real-Time table for the C7 scenario. -/
def c7RT : Table :=
  ⟨["Pricing Location", "Date", "Delivery Hour", "Interval", "LMP"],
   [[.str "A", .num 20250503, .num 1, .num 1, .num 12]]⟩

/-- Day-Ahead table with location A only. -/
def c8DA : Table :=
  ⟨["Pricing Location", "Delivery Hour", "Date", "LMP"],
   [[.str "A", .num 1, .num 20250503, .num 10]]⟩

/-- Pre-Dispatch table with location B only: no key in common with the
Day-Ahead table, so the horizon merge is empty. -/
def c8PD : Table :=
  ⟨["Pricing Location", "Delivery Hour", "Date", "LMP"],
   [[.str "B", .num 1, .num 20250503, .num 11]]⟩

/-- Real-Time table for the C8 scenario. -/
def c8RT : Table :=
  ⟨["Pricing Location", "Date", "Delivery Hour", "Interval", "LMP"],
   [[.str "A", .num 20250503, .num 1, .num 1, .num 12]]⟩

/-- Operating-Reserve Day-Ahead table for the C9 scenario. -/
def c9DA : Table :=
  ⟨["Pricing Location", "Delivery Hour", "Date", "LMP 10S"],
   [[.str "A", .num 1, .num 20250504, .num 5]]⟩

/-- Operating-Reserve Pre-Dispatch source variant whose hour column is
named DELIVERY_HOUR instead of the canonical Delivery Hour. -/
def c9PD : Table :=
  ⟨["Pricing Location", "DELIVERY_HOUR", "Date", "LMP 10S"],
   [[.str "A", .num 1, .num 20250504, .num 6]]⟩

/-- Operating-Reserve Real-Time table for the C9 scenario (two
intervals of hour 1, values 7 and 9, hourly mean 8). -/
def c9RT : Table :=
  ⟨["Pricing Location", "Date", "Delivery Hour", "Interval", "LMP 10S"],
   [[.str "A", .num 20250504, .num 1, .num 1, .num 7],
    [.str "A", .num 20250504, .num 1, .num 2, .num 9]]⟩

/-- Historical dataset of the C10 mutation scenario, day 3 present. -/
def c10hist : Table := ⟨["Date", "X"], [[.num 3, .num 7]]⟩

/-- New-day table of the C10 mutation scenario: its Date cell carries
the non-midnight timestamp 7/2 (day 3, noon). -/
def c10new : Table :=
  ⟨["Date", "X"], [[.num (qmk 7 2 (by decide)), .num 9]]⟩

/-- The C10 new-day table as the append engine leaves it: the Date
cell normalized to midnight of day 3. -/
def c10mut : Table := ⟨["Date", "X"], [[.num 3, .num 9]]⟩

/-- Historical dataset of the C1 idempotence witness. -/
def c1hist : Table := ⟨["Date", "X"], [[.num 3, .num 7]]⟩

/-- New-day table of the C1 idempotence witness (day 4). -/
def c1new : Table := ⟨["Date", "X"], [[.num 4, .num 9]]⟩

/-- The historical dataset after the first C1 append call. -/
def c1stored : Table :=
  ⟨["Date", "X"], [[.num 3, .num 7], [.num 4, .num 9]]⟩

/-- The caller's dataframe after the first C1 append call. -/
def c1mut : Table := ⟨["Date", "X"], [[.num 4, .num 9]]⟩

/-- Left frame of the C5 witness (keys column K). -/
def c5t1 : Table := ⟨["K", "A"], [[.num 1, .num 10], [.num 2, .num 20]]⟩

/-- Middle frame of the C5 witness. -/
def c5t2 : Table := ⟨["K", "B"], [[.num 1, .num 11], [.num 3, .num 31]]⟩

/-- Right frame of the C5 witness. -/
def c5t3 : Table := ⟨["K", "C"], [[.num 1, .num 12]]⟩

/-- First merge of the C5 witness. -/
def c5m1 : Table := ⟨["K", "A", "B"], [[.num 1, .num 10, .num 11]]⟩

/-- Second merge of the C5 witness. -/
def c5m2 : Table :=
  ⟨["K", "A", "B", "C"], [[.num 1, .num 10, .num 11, .num 12]]⟩

/-- Interval-granular input table of the C4 witness: hour 1 has two
interval rows (LMP 10 and 20), hour 2 has a single interval row
(LMP 7). -/
def c4t : Table :=
  ⟨["Pricing Location", "Date", "Delivery Hour", "Interval", "LMP"],
   [[Val.str "A", Val.num 3, Val.num 1, Val.num 1, Val.num 10],
    [Val.str "A", Val.num 3, Val.num 1, Val.num 2, Val.num 20],
    [Val.str "A", Val.num 3, Val.num 2, Val.num 1, Val.num 7]]⟩

/-- Expected Granularity Aggregator output for `c4t`: one row per
(location, date, hour), LMP means 15 = (10+20)/2 and 7 = 7/1, no
Interval column. -/
def c4h : Table :=
  ⟨["Pricing Location", "Date", "Delivery Hour", "LMP"],
   [[Val.str "A", Val.num 3, Val.num 1, Val.num 15],
    [Val.str "A", Val.num 3, Val.num 2, Val.num 7]]⟩

/-! The kernel-computable rational operations agree with the field
operations on `ℚ`. -/

theorem qmk_eq_divInt (n : ℤ) (d : ℕ) (hd : d ≠ 0) :
    qmk n d hd = Rat.divInt n d := by
  have hg : 0 < n.natAbs.gcd d :=
    Nat.gcd_pos_of_pos_right _ (Nat.pos_of_ne_zero hd)
  have hgz : ((n.natAbs.gcd d : ℕ) : ℤ) ≠ 0 := by
    exact_mod_cast Nat.pos_iff_ne_zero.mp hg
  have hgn : ((n.natAbs.gcd d : ℕ) : ℤ) ∣ n := by
    rw [Int.dvd_natAbs.symm]
    exact_mod_cast Nat.gcd_dvd_left _ _
  have hgd : n.natAbs.gcd d ∣ d := Nat.gcd_dvd_right _ _
  calc qmk n d hd
      = Rat.divInt (n.tdiv (n.natAbs.gcd d)) ((d / n.natAbs.gcd d : ℕ) : ℤ) := by
        rw [qmk, Rat.mk'_eq_divInt]
    _ = Rat.divInt (n.tdiv (n.natAbs.gcd d) * (n.natAbs.gcd d))
          (((d / n.natAbs.gcd d : ℕ) : ℤ) * (n.natAbs.gcd d)) :=
        (Rat.divInt_mul_right hgz).symm
    _ = Rat.divInt n d := by
        rw [Int.tdiv_mul_cancel hgn]
        congr 1
        rw [← Nat.cast_mul, Nat.div_mul_cancel hgd]

theorem qadd_eq (a b : ℚ) : qadd a b = a + b := by
  have ha : ((a.den : ℕ) : ℤ) ≠ 0 := by exact_mod_cast a.den_nz
  have hb : ((b.den : ℕ) : ℤ) ≠ 0 := by exact_mod_cast b.den_nz
  calc qadd a b
      = Rat.divInt (a.num * b.den + b.num * a.den) ((a.den * b.den : ℕ) : ℤ) := by
        rw [qadd, qmk_eq_divInt]
    _ = Rat.divInt (a.num * b.den + b.num * a.den)
          (((a.den : ℕ) : ℤ) * ((b.den : ℕ) : ℤ)) := by
        rw [Nat.cast_mul]
    _ = Rat.divInt a.num a.den + Rat.divInt b.num b.den :=
        (Rat.divInt_add_divInt _ _ ha hb).symm
    _ = a + b := by rw [Rat.num_divInt_den, Rat.num_divInt_den]

theorem qsum_eq (l : List ℚ) : qsum l = l.sum := by
  induction l with
  | nil => rfl
  | cons q l ih => rw [qsum, qadd_eq, ih, List.sum_cons]

theorem qdivNat_eq (a : ℚ) (n : ℕ) : qdivNat a n = a / n := by
  by_cases h : n = 0
  · simp [qdivNat, h]
  · have ha : ((a.den : ℕ) : ℤ) ≠ 0 := by exact_mod_cast a.den_nz
    have hn : ((n : ℕ) : ℤ) ≠ 0 := by exact_mod_cast h
    have hinv : ((n : ℚ))⁻¹ = Rat.divInt 1 n := by
      rw [show ((n : ℕ) : ℚ) = ((n : ℤ) : ℚ) by push_cast; ring,
        Rat.intCast_eq_divInt]
      show (Rat.divInt n 1).inv = Rat.divInt 1 n
      rw [Rat.inv_divInt]
    calc qdivNat a n
        = Rat.divInt a.num ((a.den * n : ℕ) : ℤ) := by
          rw [qdivNat, dif_neg h, qmk_eq_divInt]
      _ = Rat.divInt (a.num * 1) (((a.den : ℕ) : ℤ) * ((n : ℕ) : ℤ)) := by
          rw [mul_one, Nat.cast_mul]
      _ = Rat.divInt a.num a.den * Rat.divInt 1 n :=
          (Rat.divInt_mul_divInt _ _ ha hn).symm
      _ = a * ((n : ℚ))⁻¹ := by rw [Rat.num_divInt_den, hinv]
      _ = a / n := (div_eq_mul_inv a _).symm

theorem qfloor_eq (q : ℚ) : qfloor q = ⌊q⌋ :=
  Rat.floor_def.symm

theorem qofInt_eq (z : ℤ) : qofInt z = (z : ℚ) := by
  rw [qofInt, Rat.mk'_eq_divInt]
  exact_mod_cast Rat.divInt_one z

theorem qfloor_qofInt (z : ℤ) : qfloor (qofInt z) = z := by
  rw [qfloor_eq, qofInt_eq]
  exact Int.floor_intCast z

theorem normalizeVal_idem (v : Val) : normalizeVal (normalizeVal v) = normalizeVal v := by
  cases v with
  | num q => simp [normalizeVal, qfloor_qofInt]
  | str s => rfl
  | nan => rfl

/-! Basic facts about the primitive table operations. -/

theorem idxOf?_eq_none_iff {c : String} {l : List String} :
    idxOf? c l = none ↔ c ∉ l := by
  induction l with
  | nil => simp [idxOf?]
  | cons h t ih =>
    by_cases hc : h = c
    · simp [idxOf?, hc]
    · simp only [idxOf?, hc, if_false, Option.map_eq_none', ih, List.mem_cons, not_or]
      exact ⟨fun h2 => ⟨fun h3 => hc h3.symm, h2⟩, fun h2 => h2.2⟩

theorem idxOf?_isSome_of_mem {c : String} {l : List String} (h : c ∈ l) :
    (idxOf? c l).isSome := by
  cases he : idxOf? c l with
  | none => exact absurd h (idxOf?_eq_none_iff.mp he)
  | some i => rfl

theorem idxOf?_spec {c : String} :
    ∀ {l : List String} {i : Nat}, idxOf? c l = some i →
      i < l.length ∧ ∀ d, l.getD i d = c := by
  intro l
  induction l with
  | nil => intro i h; cases h
  | cons h t ih =>
    intro i hi
    by_cases hc : h = c
    · simp only [idxOf?, hc, if_true] at hi
      cases hi
      exact ⟨Nat.succ_pos _, fun d => hc⟩
    · simp only [idxOf?, hc, if_false, Option.map_eq_some'] at hi
      obtain ⟨j, hj, rfl⟩ := hi
      obtain ⟨hlen, hget⟩ := ih hj
      exact ⟨Nat.succ_lt_succ hlen, fun d => hget d⟩

theorem idxOf?_append_some {c : String} {l l2 : List String} {i : Nat}
    (h : idxOf? c l = some i) : idxOf? c (l ++ l2) = some i := by
  induction l generalizing i with
  | nil => cases h
  | cons a l ih =>
    by_cases hc : a = c
    · simp only [idxOf?, hc, if_true] at h ⊢
      exact h
    · simp only [idxOf?, hc, if_false, Option.map_eq_some', List.cons_append] at h ⊢
      obtain ⟨j, hj, rfl⟩ := h
      exact ⟨j, ih hj, rfl⟩

theorem mapOption_eq_some {f : α → Option β} :
    ∀ {l : List α} {l2 : List β},
      mapOption f l = some l2 ↔ List.Forall₂ (fun a b => f a = some b) l l2 := by
  intro l
  induction l with
  | nil =>
    intro l2
    constructor
    · intro h
      simp only [mapOption, Option.some.injEq] at h
      subst h
      exact List.Forall₂.nil
    · intro h
      cases h
      rfl
  | cons a l ih =>
    intro l2
    constructor
    · intro h
      simp only [mapOption] at h
      cases hfa : f a with
      | none => rw [hfa] at h; cases h
      | some b =>
        rw [hfa] at h
        cases hml : mapOption f l with
        | none => rw [hml] at h; cases h
        | some bs =>
          rw [hml] at h
          simp only [Option.some.injEq] at h
          subst h
          exact List.Forall₂.cons hfa (ih.mp hml)
    · intro h
      cases h with
      | cons hab htail =>
        simp only [mapOption, hab, ih.mpr htail]

theorem mapOption_length {f : α → Option β} {l : List α} {l2 : List β}
    (h : mapOption f l = some l2) : l2.length = l.length :=
  ((mapOption_eq_some.mp h).length_eq).symm

theorem mapOption_getD {f : α → Option β} :
    ∀ {l : List α} {l2 : List β}, mapOption f l = some l2 →
      ∀ (i : Nat), i < l.length → ∀ (d : α) (d2 : β),
        f (l.getD i d) = some (l2.getD i d2) := by
  intro l
  induction l with
  | nil => intro l2 _ i hi; cases hi
  | cons a l ih =>
    intro l2 h i hi d d2
    simp only [mapOption] at h
    cases hfa : f a with
    | none => rw [hfa] at h; cases h
    | some b =>
      rw [hfa] at h
      cases hml : mapOption f l with
      | none => rw [hml] at h; cases h
      | some bs =>
        rw [hml] at h
        simp only [Option.some.injEq] at h
        subst h
        cases i with
        | zero => simpa using hfa
        | succ i => exact ih hml i (Nat.lt_of_succ_lt_succ hi) d d2

theorem getD_map {f : α → β} {l : List α} {i : Nat} (hi : i < l.length)
    (d : β) (d0 : α) : (l.map f).getD i d = f (l.getD i d0) := by
  rw [List.getD_eq_getElem?_getD, List.getElem?_map, List.getElem?_eq_getElem hi,
    List.getD_eq_getElem?_getD, List.getElem?_eq_getElem hi]
  rfl

theorem getCell_set_fix {r : List Val} {i : Nat} {f : Val → Val}
    (hf : f (Val.num 0) = Val.num 0) :
    getCell (r.set i (f (getCell r i))) i = f (getCell r i) := by
  unfold getCell
  by_cases hi : i < r.length
  · rw [List.getD_eq_getElem?_getD, List.getElem?_set_self hi]
    rfl
  · rw [List.set_eq_of_length_le (Nat.le_of_not_lt hi),
      List.getD_eq_default _ _ (Nat.le_of_not_lt hi), hf]

/-! The Interval Expander (claim C3). -/

theorem zip_replicate_map (r : List Val) :
    ∀ (vs : List Val),
      ((List.replicate vs.length r).zip vs).map (fun p => p.1 ++ [p.2]) =
        vs.map fun v => r ++ [v] := by
  intro vs
  induction vs with
  | nil => rfl
  | cons v vs ih => simp only [List.length_cons, List.replicate_succ,
      List.zip_cons_cons, List.map_cons, ih]

theorem rep_zip_tile :
    ∀ (l : List (List Val)),
      ((l.flatMap fun r => List.replicate 12 r).zip
          ((List.replicate l.length intervalBlock).flatten)).map (fun p => p.1 ++ [p.2]) =
        l.flatMap fun r => intervalBlock.map fun v => r ++ [v]
  | [] => rfl
  | r :: l => by
    show ((List.replicate 12 r ++ l.flatMap fun r => List.replicate 12 r).zip
        (intervalBlock ++ (List.replicate l.length intervalBlock).flatten)).map
        (fun p => p.1 ++ [p.2]) =
      (intervalBlock.map fun v => r ++ [v]) ++
        l.flatMap fun r => intervalBlock.map fun v => r ++ [v]
    have hlen : (List.replicate 12 r).length = intervalBlock.length := rfl
    rw [List.zip_append hlen, List.map_append, rep_zip_tile l]
    have h2 : List.replicate 12 r = List.replicate intervalBlock.length r := rfl
    rw [h2, zip_replicate_map]

theorem expand_rows_eq (t : Table) (h : "Interval" ∉ t.header) :
    (expand_to_intervals t).header = t.header ++ ["Interval"] ∧
    (expand_to_intervals t).rows =
      t.rows.flatMap fun r => intervalBlock.map fun v => r ++ [v] := by
  have hidx : idxOf? "Interval" t.header = none := idxOf?_eq_none_iff.mpr h
  unfold expand_to_intervals setColAll
  simp only [colIdx, hidx]
  exact ⟨by trivial, rep_zip_tile t.rows⟩

theorem flatMap_length_const {f : List Val → List (List Val)}
    (hf : ∀ r, (f r).length = 12) :
    ∀ (l : List (List Val)), (l.flatMap f).length = 12 * l.length := by
  intro l
  induction l with
  | nil => rfl
  | cons r l ih =>
    simp only [List.flatMap_cons, List.length_append, hf, ih, List.length_cons]
    ring

theorem flatMap_getD_block {f : List Val → List (List Val)}
    (hf : ∀ r, (f r).length = 12) :
    ∀ (l : List (List Val)) (j k : Nat), j < l.length → k < 12 →
      (l.flatMap f).getD (12 * j + k) [] = (f (l.getD j [])).getD k [] := by
  intro l
  induction l with
  | nil => intro j k hj _; cases hj
  | cons r l ih =>
    intro j k hj hk
    cases j with
    | zero =>
      simp only [List.flatMap_cons, Nat.mul_zero, Nat.zero_add]
      rw [List.getD_append _ _ _ _ (by rw [hf r]; exact hk)]
      rfl
    | succ j =>
      simp only [List.flatMap_cons]
      rw [List.getD_append_right _ _ _ _ (by rw [hf r]; omega)]
      have harith : 12 * (j + 1) + k - (f r).length = 12 * j + k := by
        rw [hf r]; ring_nf; omega
      rw [harith, ih j k (Nat.lt_of_succ_lt_succ hj) hk]
      rfl

/-- C3: for every hourly input table (one without an Interval column)
with N rows, `expand_to_intervals` produces 12 × N rows; the 12 copies
of row j are consecutive at positions 12j..12j+11, the new Interval
column (appended as the last column) takes values 1..12 in increasing
order within each block, and all other columns are identical to the
original row in all 12 copies. -/
theorem interval_expander_correct (t : Table) (hInt : "Interval" ∉ t.header) :
    (expand_to_intervals t).header = t.header ++ ["Interval"] ∧
    (expand_to_intervals t).rows.length = 12 * t.rows.length ∧
    ∀ j k, j < t.rows.length → k < 12 →
      (expand_to_intervals t).rows.getD (12 * j + k) [] =
        t.rows.getD j [] ++ [Val.num ((k : ℚ) + 1)] := by
  obtain ⟨hh, hr⟩ := expand_rows_eq t hInt
  have hblock : ∀ r : List Val, ((intervalBlock.map fun v => r ++ [v]).length = 12) :=
    fun r => rfl
  refine ⟨hh, ?_, ?_⟩
  · rw [hr]
    exact flatMap_length_const hblock t.rows
  · intro j k hj hk
    rw [hr, flatMap_getD_block hblock t.rows j k hj hk,
      getD_map (by rw [show intervalBlock.length = 12 from rfl]; exact hk) [] (Val.num 0)]
    have hbk : ∀ k, k < 12 → intervalBlock.getD k (Val.num 0) = Val.num ((k : ℚ) + 1) := by
      intro k hk
      interval_cases k <;> exact congrArg Val.num (by norm_num)
    rw [hbk k hk]

/-! The Column Normalizer's renaming behavior (claims C7 and C9). -/

theorem find?_horizonRen (cols : List String) (suf : String) (h : String) :
    List.find? (fun p => p.1 = h) (horizonRen cols suf) =
      if h ∈ cols then some (h, h ++ suf) else none := by
  induction cols with
  | nil => rfl
  | cons c cols ih =>
    show List.find? (fun p => p.1 = h) ((c, c ++ suf) :: horizonRen cols suf) = _
    rw [List.find?_cons]
    by_cases hc : c = h
    · subst hc
      have hp : (decide ((c, c ++ suf).1 = c)) = true := by simp
      rw [hp, if_pos (List.mem_cons_self c cols)]
    · have hp : (decide ((c, c ++ suf).1 = h)) = false := by simp [hc]
      rw [hp]
      show List.find? (fun p => p.1 = h) (horizonRen cols suf) = _
      rw [ih]
      by_cases hm : h ∈ cols
      · rw [if_pos hm, if_pos (List.mem_cons_of_mem c hm)]
      · rw [if_neg hm, if_neg (by
          intro hmem
          rcases List.mem_cons.mp hmem with h1 | h1
          · exact hc h1.symm
          · exact hm h1)]

theorem rename_horizonRen (cols : List String) (suf : String) (t : Table) :
    rename (horizonRen cols suf) t =
      ⟨t.header.map fun c => if c ∈ cols then c ++ suf else c, t.rows⟩ := by
  unfold rename
  congr 1
  apply List.map_congr_left
  intro c _
  rw [find?_horizonRen]
  by_cases hm : c ∈ cols
  · rw [if_pos hm, if_pos hm]
  · rw [if_neg hm, if_neg hm]

theorem find?_single (a b c : String) :
    List.find? (fun p : String × String => p.1 = c) [(a, b)] =
      if a = c then some (a, b) else none := by
  rw [List.find?_cons]
  by_cases h : a = c
  · have hp : (decide ((a, b).1 = c)) = true := by simp [h]
    rw [hp]
    show some (a, b) = _
    rw [if_pos h]
  · have hp : (decide ((a, b).1 = c)) = false := by simp [h]
    rw [hp]
    show (none : Option (String × String)) = _
    rw [if_neg h]

theorem rename_single (a b : String) (t : Table) :
    rename [(a, b)] t = ⟨t.header.map fun c => if c = a then b else c, t.rows⟩ := by
  unfold rename
  congr 1
  apply List.map_congr_left
  intro c _
  rw [find?_single]
  by_cases hm : a = c
  · rw [if_pos hm, if_pos hm.symm, hm]
  · rw [if_neg hm, if_neg fun hh : c = a => hm hh.symm]

/-- C9: for every Operating-Reserve Pre-Dispatch table whose hour
column is named DELIVERY_HOUR, the normalizer step shared by
`create_hourly_OR_data` and `create_interval_OR_data` renames that
column to the canonical Delivery Hour (leaving the rows untouched)
before the joins; consequently, on a concrete drifted input both
pipelines produce their merged rows instead of an empty join. -/
theorem delivery_hour_drift_fixed :
    (∀ t : Table, "DELIVERY_HOUR" ∈ t.header →
      (fixDeliveryHour t).rows = t.rows ∧
      (fixDeliveryHour t).header =
        t.header.map fun c => if c = "DELIVERY_HOUR" then "Delivery Hour" else c) ∧
    create_hourly_OR_data c9DA c9PD c9RT =
      some ⟨["Pricing Location", "Delivery Hour", "Date",
             "LMP 10S_Day_Ahead", "LMP 10S_Pre_Dispatch", "LMP 10S_Real_Time"],
            [[.str "A", .num 1, .num 20250504, .num 5, .num 6, .num 8]]⟩ ∧
    ((create_interval_OR_data c9DA c9PD c9RT).map fun t => t.rows.length) = some 2 := by
  refine ⟨?_, by decide, by decide⟩
  intro t ht
  rw [fixDeliveryHour, if_pos ht, rename_single]
  exact ⟨rfl, rfl⟩

/-- Witness for C9: the drifted concrete Pre-Dispatch table has its
hour column renamed with rows untouched. -/
theorem delivery_hour_drift_fixed_witness :
    (fixDeliveryHour c9PD).rows = c9PD.rows ∧
    (fixDeliveryHour c9PD).header =
      c9PD.header.map fun c => if c = "DELIVERY_HOUR" then "Delivery Hour" else c :=
  delivery_hour_drift_fixed.1 c9PD (by decide)

/-- C7 counterexample: with the expected metric column LMP absent from
the Day-Ahead source, the renaming step does not fail: it returns the
partially-renamed table (only the present metric Energy Loss Price
got its horizon suffix), and the whole pipeline completes without any
error. -/
theorem missing_metric_counterexample :
    rename (horizonRen energyMetrics "_Day_Ahead") c7DA =
      ⟨["Pricing Location", "Delivery Hour", "Date", "Energy Loss Price_Day_Ahead"],
       [[.str "A", .num 1, .num 20250503, .num 3]]⟩ ∧
    (create_hourly_energy_data c7DA c7PD c7RT).isSome = true := by
  decide

/-- C7 amended: the renaming step never raises on an absent metric
column; it renames exactly those expected metric columns that are
present and passes every other column through, and the pipeline
propagates the partially-renamed table (shown at the counterexample
input). -/
theorem missing_metric_amended :
    (∀ (cols : List String) (suf : String) (t : Table),
        rename (horizonRen cols suf) t =
          ⟨t.header.map fun c => if c ∈ cols then c ++ suf else c, t.rows⟩) ∧
    (create_hourly_energy_data c7DA c7PD c7RT).isSome = true :=
  ⟨rename_horizonRen, by decide⟩

/-- C8 counterexample: with Day-Ahead and Pre-Dispatch sharing no key,
the horizon merge of `create_hourly_energy_data` produces zero rows
and the function returns that empty table as an ordinary successful
result; no error is raised. -/
theorem empty_join_counterexample :
    create_hourly_energy_data c8DA c8PD c8RT =
      some ⟨["Pricing Location", "Delivery Hour", "Date",
             "LMP_Day_Ahead", "LMP_Pre_Dispatch", "LMP_Real_Time"], []⟩ := by
  decide

/-- C8 amended: the merge step succeeds whenever the key columns exist
in both frames, whatever the row content — in particular a zero-row
join result is returned as a successful empty table (shown at the
counterexample input), not surfaced as an error. -/
theorem empty_join_amended :
    (∀ (keys : List String) (t1 t2 : Table) (i1 i2 : List Nat),
        mapOption (colIdx t1) keys = some i1 →
        mapOption (colIdx t2) keys = some i2 →
        (merge keys t1 t2).isSome = true) ∧
    ((create_hourly_energy_data c8DA c8PD c8RT).map fun t => t.rows.isEmpty) =
      some true := by
  refine ⟨?_, by decide⟩
  intro keys t1 t2 i1 i2 h1 h2
  rw [merge, h1, h2]
  rfl

/-- Witness for C8's amended statement: merging the two concrete
key-disjoint frames succeeds. -/
theorem empty_join_amended_witness :
    (merge hourlyKeys c8DA c8PD).isSome = true :=
  empty_join_amended.1 hourlyKeys c8DA c8PD [0, 2, 1] [0, 2, 1]
    (by decide) (by decide)

/-- C6: on the end-to-end scenario — Day-Ahead LMP 10, Pre-Dispatch
LMP 11, twelve Real-Time rows of LMP 12 for (A, 2025-05-03, hour 1) —
`create_hourly_energy_data` returns one merged row carrying
LMP_Day_Ahead 10, LMP_Pre_Dispatch 11 and LMP_Real_Time 12. -/
theorem end_to_end_scenario :
    create_hourly_energy_data c6DA c6PD c6RT =
      some ⟨["Pricing Location", "Delivery Hour", "Date",
             "LMP_Day_Ahead", "LMP_Pre_Dispatch", "LMP_Real_Time"],
            [[.str "A", .num 1, .num 20250503, .num 10, .num 11, .num 12]]⟩ ∧
    ((create_hourly_energy_data c6DA c6PD c6RT).bind
        fun t => cellAt t "LMP_Day_Ahead" 0) = some (.num 10) ∧
    ((create_hourly_energy_data c6DA c6PD c6RT).bind
        fun t => cellAt t "LMP_Pre_Dispatch" 0) = some (.num 11) ∧
    ((create_hourly_energy_data c6DA c6PD c6RT).bind
        fun t => cellAt t "LMP_Real_Time" 0) = some (.num 12) := by
  decide

/-- C2, demonstrated at a concrete failing input: appending a new-day
table that misses the historical column X raises the schema error
(KeyError, `none`) in `add_hourly_energy_data` — as the spec demands —
but `add_interval_OR_data`, which reindexes by the NEW table's own
columns (interval_processor line 203), appends anyway and persists the
new row with X silently nulled to `nan`.  A column permutation is
handled by all variants (shown for both engines). -/
theorem add_interval_OR_schema_slip :
    add_hourly_energy_data c2hist c2new 4 = none ∧
    ((add_interval_OR_data c2hist c2new 4).map fun st => st.appended) = some true ∧
    ((add_interval_OR_data c2hist c2new 4).map fun st => cellAt st.stored "X" 1) =
      some (some Val.nan) ∧
    ((add_hourly_energy_data c2hist c2perm 4).map fun st => st.stored) =
      some ⟨["Date", "X"], [[.num 3, .num 7], [.num 4, .num 9]]⟩ ∧
    ((add_interval_OR_data c2hist c2perm 4).map fun st => st.stored) =
      some ⟨["Date", "X"], [[.num 3, .num 7], [.num 4, .num 9]]⟩ := by
  decide

/-- C10: every append engine call that gets past reading the Date
column overwrites the caller's dataframe's Date column with normalized
timestamps before the date-presence check, so the caller's object ends
as the normalized frame even on the Skipped transition; at a concrete
input with a non-midnight timestamp, a skipped call leaves the
caller's dataframe changed. -/
theorem append_mutates_caller :
    (∀ (b : Bool) (hist new : Table) (d : ℚ) (st : AppendState),
        add_append_core b hist new d = some st →
        mapCol "Date" normalizeVal new = some st.caller) ∧
    ((add_hourly_energy_data c10hist c10new 3).map fun st => st.appended) =
      some false ∧
    ((add_hourly_energy_data c10hist c10new 3).map fun st => st.caller) =
      some c10mut ∧
    c10mut ≠ c10new := by
  refine ⟨?_, by decide, by decide, by decide⟩
  intro b hist new d st h
  rw [add_append_core] at h
  split at h
  · cases h
  next new1 heq1 =>
    split at h
    · cases h
    next hist1 heq2 =>
      split at h
      · cases h
      next dates heq3 =>
        split at h
        · cases h
          exact heq1
        · split at h
          · cases h
          next sel heq4 =>
            cases h
            exact heq1

/-- Witness for C10: the general mutation statement applied at the
concrete skipped call. -/
theorem append_mutates_caller_witness :
    mapCol "Date" normalizeVal c10new = some c10mut :=
  append_mutates_caller.1 true c10hist c10new 3 ⟨c10hist, c10mut, false⟩
    (by decide)

/-- Witness for C3 at a concrete two-row table: the copy of row 0 at
block position 1 is the original row with Interval value 2. -/
theorem interval_expander_correct_witness :
    (expand_to_intervals ⟨["LMP"], [[Val.num 5], [Val.num 7]]⟩).rows.getD (12 * 0 + 1) [] =
      [Val.num 5, Val.num 2] := by
  rw [(interval_expander_correct ⟨["LMP"], [[Val.num 5], [Val.num 7]]⟩
    (by decide)).2.2 0 1 (by decide) (by decide)]
  norm_num

/-! The Historical Append Engine is idempotent per date (claim C1). -/

theorem getD_mem {α : Type _} {l : List α} {i : Nat} (d : α) (h : i < l.length) :
    l.getD i d ∈ l := by
  rw [List.getD_eq_getElem?_getD, List.getElem?_eq_getElem h]
  exact List.getElem_mem h

theorem normalizeVal_default : normalizeVal (Val.num 0) = Val.num 0 := by decide

theorem sameDateDataB_spec {new : Table} {d : ℚ} (h : sameDateDataB new d = true) :
    ∃ iN, colIdx new "Date" = some iN ∧ new.rows ≠ [] ∧
      ∀ j, j < new.rows.length →
        ∃ q, getCell (new.rows.getD j []) iN = Val.num q ∧ qfloor q = qfloor d := by
  unfold sameDateDataB at h
  cases hv : colVals new "Date" with
  | none => rw [hv] at h; cases h
  | some vs =>
    rw [hv] at h
    rw [Bool.and_eq_true] at h
    obtain ⟨hne, hall⟩ := h
    obtain ⟨iN, hiN, hvs⟩ := Option.map_eq_some'.mp hv
    refine ⟨iN, hiN, ?_, ?_⟩
    · intro hnil
      rw [hnil] at hvs
      subst hvs
      cases hne
    · intro j hj
      have hjv : j < vs.length := by rw [← hvs]; simpa using hj
      have hmem : getCell (new.rows.getD j []) iN ∈ vs := by
        have h1 : vs.getD j (Val.num 0) ∈ vs := getD_mem (Val.num 0) hjv
        have h2 : vs.getD j (Val.num 0) = getCell (new.rows.getD j []) iN := by
          rw [← hvs]
          exact getD_map hj (Val.num 0) []
        rwa [h2] at h1
      have hp := List.all_eq_true.mp hall _ hmem
      cases hc : getCell (new.rows.getD j []) iN with
      | num q =>
        rw [hc] at hp
        exact ⟨q, rfl, of_decide_eq_true hp⟩
      | str s => rw [hc] at hp; cases hp
      | nan => rw [hc] at hp; cases hp

theorem add_append_core_twice (b : Bool) (hist new : Table) (d : ℚ)
    (st1 : AppendState) (hdata : sameDateDataB new d = true)
    (h : add_append_core b hist new d = some st1) :
    (add_append_core b st1.stored new d).map AppendState.appended = some false ∧
    (add_append_core b st1.stored new d).map AppendState.stored = some st1.stored := by
  obtain ⟨iN, hiN, hrows, hdate⟩ := sameDateDataB_spec hdata
  have hrlen : 0 < new.rows.length := List.length_pos.mpr hrows
  rw [add_append_core] at h
  split at h
  · cases h
  next new1 heq1 =>
    split at h
    · cases h
    next hist1 heq2 =>
      split at h
      · cases h
      next dates heq3 =>
        split at h
        next hmem =>
          cases h
          have hrun : add_append_core b hist new d = some ⟨hist, new1, false⟩ := by
            simp only [add_append_core, heq1, heq2, heq3]
            rw [if_pos hmem]
          show (add_append_core b hist new d).map AppendState.appended = some false ∧
            (add_append_core b hist new d).map AppendState.stored = some hist
          rw [hrun]
          exact ⟨rfl, rfl⟩
        next hmem =>
          split at h
          · cases h
          next sel heq4 =>
            cases h
            -- name the parts of the first (appended) call
            unfold mapCol colIdx at heq1
            rw [show idxOf? "Date" new.header = some iN from hiN] at heq1
            simp only [Option.map_some'] at heq1
            have hnew1 := Option.some.inj heq1
            obtain ⟨iH, hiH, hhist1⟩ := Option.map_eq_some'.mp heq2
            obtain ⟨idxs, hidxs, hsel⟩ := Option.map_eq_some'.mp heq4
            have hnewhead : new1.header = new.header := by rw [← hnew1]
            have hhisthead : hist1.header = hist.header := by rw [← hhist1]
            have hselhead : sel.header = (if b = true then hist.header else new.header) := by
              rw [← hsel]
            have hselrows : sel.rows =
                new1.rows.map fun r => idxs.map (getCell r) := by rw [← hsel]
            have hnewrows : new1.rows =
                new.rows.map fun r => r.set iN (normalizeVal (getCell r iN)) := by
              rw [← hnew1]
            -- Date's position in the stored (concatenated) dataset
            have hiHst : idxOf? "Date" (pdConcat hist1 sel).header = some iH := by
              have : (pdConcat hist1 sel).header =
                  hist1.header ++ sel.header.filter fun c => !(hist1.header.contains c) := rfl
              rw [this, hhisthead]
              exact idxOf?_append_some hiH
            have hiHlen : iH < (pdConcat hist1 sel).header.length := (idxOf?_spec hiHst).1
            -- Date's position in the selected columns
            obtain ⟨iS, hiS⟩ :
                ∃ iS, idxOf? "Date" sel.header = some iS := by
              rw [hselhead]
              cases b with
              | false => exact ⟨iN, hiN⟩
              | true => exact ⟨iH, hiH⟩
            have hiSlt : iS < sel.header.length := (idxOf?_spec hiS).1
            have hidxlen : idxs.length = sel.header.length := by
              rw [hselhead]
              exact mapOption_length hidxs
            -- the entry of idxs at the Date position is the Date index of new
            have hidxiS : idxs.getD iS 0 = iN := by
              have h1 := mapOption_getD hidxs iS
                (by rw [← hselhead]; exact hiSlt) "" 0
              have h2 : (if b = true then hist.header else new.header).getD iS "" = "Date" := by
                have := (idxOf?_spec (by rw [← hselhead]; exact hiS :
                  idxOf? "Date" (if b = true then hist.header else new.header) = some iS)).2 ""
                exact this
              rw [h2] at h1
              have h3 : colIdx new1 "Date" = some iN := by
                show idxOf? "Date" new1.header = some iN
                rw [hnewhead]
                exact hiN
              rw [h3] at h1
              exact (Option.some.inj h1).symm
            -- the first selected row carries the normalized target date
            have hselne : 0 < sel.rows.length := by
              rw [hselrows, hnewrows]
              simpa using hrlen
            have hr0mem : sel.rows.getD 0 [] ∈ sel.rows := getD_mem [] hselne
            obtain ⟨q0, hq0, hq0d⟩ := hdate 0 hrlen
            have hr0 : sel.rows.getD 0 [] = idxs.map (getCell (new1.rows.getD 0 [])) := by
              rw [hselrows]
              exact getD_map (by rw [hnewrows]; simpa using hrlen) [] []
            have hrn0 : new1.rows.getD 0 [] =
                (new.rows.getD 0 []).set iN (normalizeVal (getCell (new.rows.getD 0 []) iN)) := by
              rw [hnewrows]
              exact getD_map hrlen [] []
            have hcell : getCell (sel.rows.getD 0 []) iS = Val.num (qofInt (qfloor d)) := by
              rw [hr0]
              show (idxs.map (getCell (new1.rows.getD 0 []))).getD iS (Val.num 0) = _
              rw [getD_map (by rw [hidxlen]; exact hiSlt) (Val.num 0) 0, hidxiS]
              show getCell (new1.rows.getD 0 []) iN = _
              rw [hrn0, getCell_set_fix normalizeVal_default, hq0]
              show Val.num (qofInt (qfloor q0)) = _
              rw [hq0d]
            -- hence the target date is among the stored dataset's dates
            have hfetch : fetchVal sel (sel.rows.getD 0 []) "Date" =
                Val.num (qofInt (qfloor d)) := by
              unfold fetchVal
              rw [show colIdx sel "Date" = some iS from hiS]
              exact hcell
            have hrowmem : (pdConcat hist1 sel).header.map (fetchVal sel (sel.rows.getD 0 [])) ∈
                (pdConcat hist1 sel).rows := by
              have hrows' : (pdConcat hist1 sel).rows =
                  hist1.rows.map (fun r => (pdConcat hist1 sel).header.map (fetchVal hist1 r)) ++
                  sel.rows.map (fun r => (pdConcat hist1 sel).header.map (fetchVal sel r)) := rfl
              rw [hrows']
              exact List.mem_append_right _ (List.mem_map_of_mem _ hr0mem)
            have hrowdate : getCell
                ((pdConcat hist1 sel).header.map (fetchVal sel (sel.rows.getD 0 []))) iH =
                Val.num (qofInt (qfloor d)) := by
              show ((pdConcat hist1 sel).header.map (fetchVal sel (sel.rows.getD 0 []))).getD
                iH (Val.num 0) = _
              rw [getD_map hiHlen (Val.num 0) ""]
              rw [(idxOf?_spec hiHst).2 ""]
              exact hfetch
            -- run the second call
            have hm1 : mapCol "Date" normalizeVal (pdConcat hist1 sel) =
                some ⟨(pdConcat hist1 sel).header,
                  (pdConcat hist1 sel).rows.map fun r =>
                    r.set iH (normalizeVal (getCell r iH))⟩ := by
              unfold mapCol colIdx
              rw [hiHst]
              rfl
            have hv2 : colVals ⟨(pdConcat hist1 sel).header,
                  (pdConcat hist1 sel).rows.map fun r =>
                    r.set iH (normalizeVal (getCell r iH))⟩ "Date" =
                some (((pdConcat hist1 sel).rows.map fun r =>
                    r.set iH (normalizeVal (getCell r iH))).map fun r => getCell r iH) := by
              unfold colVals colIdx
              rw [show idxOf? "Date" (Table.mk (pdConcat hist1 sel).header
                ((pdConcat hist1 sel).rows.map fun r =>
                  r.set iH (normalizeVal (getCell r iH)))).header = some iH from hiHst]
              rfl
            have hmem2 : Val.num (qofInt (qfloor d)) ∈
                ((pdConcat hist1 sel).rows.map fun r =>
                    r.set iH (normalizeVal (getCell r iH))).map fun r => getCell r iH := by
              rw [List.map_map]
              refine List.mem_map.mpr
                ⟨(pdConcat hist1 sel).header.map (fetchVal sel (sel.rows.getD 0 [])),
                 hrowmem, ?_⟩
              show getCell
                (((pdConcat hist1 sel).header.map (fetchVal sel (sel.rows.getD 0 []))).set iH
                  (normalizeVal (getCell
                    ((pdConcat hist1 sel).header.map (fetchVal sel (sel.rows.getD 0 []))) iH)))
                iH = _
              rw [getCell_set_fix normalizeVal_default, hrowdate]
              show Val.num (qofInt (qfloor (qofInt (qfloor d)))) = _
              rw [qfloor_qofInt]
            have hrun : add_append_core b (pdConcat hist1 sel) new d =
                some ⟨pdConcat hist1 sel,
                  ⟨new.header, new.rows.map fun r =>
                    r.set iN (normalizeVal (getCell r iN))⟩, false⟩ := by
              have heq1' : mapCol "Date" normalizeVal new =
                  some ⟨new.header, new.rows.map fun r =>
                    r.set iN (normalizeVal (getCell r iN))⟩ := by
                unfold mapCol colIdx
                rw [show idxOf? "Date" new.header = some iN from hiN]
                rfl
              simp only [add_append_core, heq1', hm1, hv2]
              rw [if_pos hmem2]
            show (add_append_core b (pdConcat hist1 sel) new d).map
                AppendState.appended = some false ∧
              (add_append_core b (pdConcat hist1 sel) new d).map
                AppendState.stored = some (pdConcat hist1 sel)
            rw [hrun]
            exact ⟨rfl, rfl⟩



/-- C1: for every historical dataset and new-day table that is one
date's data, a second call of any of the four Historical Append Engine
functions on the dataset produced by a first call takes the Skipped
transition (`appended = false`) and persists nothing: the stored
dataset is unchanged, so exactly one copy of that date's rows remains. -/
theorem historical_append_idempotent (hist new : Table) (d : ℚ) (st1 : AppendState)
    (hdata : sameDateDataB new d = true) :
    (add_hourly_energy_data hist new d = some st1 →
      (add_hourly_energy_data st1.stored new d).map AppendState.appended = some false ∧
      (add_hourly_energy_data st1.stored new d).map AppendState.stored = some st1.stored) ∧
    (add_hourly_OR_data hist new d = some st1 →
      (add_hourly_OR_data st1.stored new d).map AppendState.appended = some false ∧
      (add_hourly_OR_data st1.stored new d).map AppendState.stored = some st1.stored) ∧
    (add_interval_energy_data hist new d = some st1 →
      (add_interval_energy_data st1.stored new d).map AppendState.appended = some false ∧
      (add_interval_energy_data st1.stored new d).map AppendState.stored = some st1.stored) ∧
    (add_interval_OR_data hist new d = some st1 →
      (add_interval_OR_data st1.stored new d).map AppendState.appended = some false ∧
      (add_interval_OR_data st1.stored new d).map AppendState.stored = some st1.stored) :=
  ⟨fun h => add_append_core_twice true hist new d st1 hdata h,
   fun h => add_append_core_twice true hist new d st1 hdata h,
   fun h => add_append_core_twice true hist new d st1 hdata h,
   fun h => add_append_core_twice false hist new d st1 hdata h⟩

/-- Witness for C1: after appending day 4 onto a day-3 dataset, the
second hourly-energy append call skips and leaves the dataset as it
was. -/
theorem historical_append_idempotent_witness :
    (add_hourly_energy_data c1stored c1new 4).map AppendState.appended = some false ∧
    (add_hourly_energy_data c1stored c1new 4).map AppendState.stored = some c1stored :=
  (historical_append_idempotent c1hist c1new 4 ⟨c1stored, c1mut, true⟩ (by decide)).1
    (by decide)

/-! The Horizon Merger is a true inner join (claim C5). -/

theorem countP_flatMap (p : β → Bool) (f : α → List β) :
    ∀ l : List α, List.countP p (l.flatMap f) = (l.map fun a => List.countP p (f a)).sum := by
  intro l
  induction l with
  | nil => rfl
  | cons a l ih =>
    rw [List.flatMap_cons, List.countP_append, ih, List.map_cons, List.sum_cons]

theorem mapOption_mem {f : α → Option β} :
    ∀ {l : List α} {l2 : List β}, mapOption f l = some l2 →
      ∀ b ∈ l2, ∃ a ∈ l, f a = some b := by
  intro l
  induction l with
  | nil =>
    intro l2 h b hb
    simp only [mapOption, Option.some.injEq] at h
    subst h
    cases hb
  | cons a l ih =>
    intro l2 h b hb
    simp only [mapOption] at h
    cases hfa : f a with
    | none => rw [hfa] at h; cases h
    | some b0 =>
      rw [hfa] at h
      cases hml : mapOption f l with
      | none => rw [hml] at h; cases h
      | some bs =>
        rw [hml] at h
        simp only [Option.some.injEq] at h
        subst h
        rcases List.mem_cons.mp hb with rfl | hb2
        · exact ⟨a, List.mem_cons_self a l, hfa⟩
        · obtain ⟨a2, ha2, hfa2⟩ := ih hml b hb2
          exact ⟨a2, List.mem_cons_of_mem a ha2, hfa2⟩

theorem count_join (rows1 rows2 : List (List Val)) (key1 key2 : List Val → List Val)
    (post : List Val → List Val → List Val) (k : List Val)
    (hpost : ∀ r1 ∈ rows1, ∀ r2, key1 (post r1 r2) = key1 r1) :
    List.countP (fun row => decide (key1 row = k))
      (rows1.flatMap fun r1 =>
        (rows2.filter fun r2 => decide (key1 r1 = key2 r2)).map (post r1)) =
    (List.countP (fun r => decide (key1 r = k)) rows1) *
      (List.countP (fun r => decide (key2 r = k)) rows2) := by
  induction rows1 with
  | nil => simp
  | cons r1 rows1 ih =>
    rw [List.flatMap_cons, List.countP_append, List.countP_map, List.countP_filter,
      ih (fun r h r2 => hpost r (List.mem_cons_of_mem _ h) r2)]
    have hchunk : List.countP
        (fun r2 => ((fun row => decide (key1 row = k)) ∘ post r1) r2 &&
          decide (key1 r1 = key2 r2)) rows2 =
        if key1 r1 = k then List.countP (fun r2 => decide (key2 r2 = k)) rows2 else 0 := by
      by_cases hk : key1 r1 = k
      · rw [if_pos hk]
        apply List.countP_congr
        intro r2 _
        show (decide (key1 (post r1 r2) = k) && decide (key1 r1 = key2 r2)) = true ↔
          decide (key2 r2 = k) = true
        rw [hpost r1 (List.mem_cons_self _ _) r2, hk]
        simp [eq_comm]
      · rw [if_neg hk]
        rw [show (0 : Nat) = List.countP (fun _ => false) rows2 by simp]
        apply List.countP_congr
        intro r2 _
        show (decide (key1 (post r1 r2) = k) && decide (key1 r1 = key2 r2)) = true ↔
          false = true
        rw [hpost r1 (List.mem_cons_self _ _) r2]
        simp [hk]
    rw [hchunk, List.countP_cons]
    by_cases hk : key1 r1 = k
    · rw [if_pos hk]
      have h1 : (if decide (key1 r1 = k) = true then 1 else 0) = 1 := by simp [hk]
      rw [h1]
      ring
    · rw [if_neg hk]
      have h1 : (if decide (key1 r1 = k) = true then 1 else 0) = 0 := by simp [hk]
      rw [h1]
      ring

theorem nodupB_count_rows (key : List Val → List Val) :
    ∀ (rows : List (List Val)), nodupB (rows.map key) = true → ∀ k,
      List.countP (fun r => decide (key r = k)) rows =
        if k ∈ rows.map key then 1 else 0 := by
  intro rows
  induction rows with
  | nil => intro _ k; simp
  | cons r rows ih =>
    intro h k
    rw [List.map_cons, nodupB, Bool.and_eq_true] at h
    obtain ⟨hna, hnd⟩ := h
    have hal : key r ∉ rows.map key := by simpa using hna
    rw [List.countP_cons, ih hnd k]
    by_cases hk : key r = k
    · subst hk
      rw [if_neg hal, if_pos (show key r ∈ List.map key (r :: rows) by
        rw [List.map_cons]; exact List.mem_cons_self _ _)]
      simp
    · have hiff : (k ∈ (r :: rows).map key) ↔ (k ∈ rows.map key) := by
        rw [List.map_cons]
        exact ⟨fun hh => (List.mem_cons.mp hh).resolve_left fun hh2 => hk hh2.symm,
               fun hh => List.mem_cons_of_mem _ hh⟩
      rw [if_congr hiff rfl rfl]
      simp [hk]

theorem wfB_spec {t : Table} (h : wfB t = true) :
    ∀ r ∈ t.rows, r.length = t.header.length := by
  intro r hr
  have := List.all_eq_true.mp h r hr
  simpa using this

theorem getCell_append {r x : List Val} {i : Nat} (h : i < r.length) :
    getCell (r ++ x) i = getCell r i := by
  unfold getCell
  exact List.getD_append _ _ _ _ h

theorem getCell_ne_nan {r : List Val} (h : Val.nan ∉ r) (i : Nat) :
    getCell r i ≠ Val.nan := by
  unfold getCell
  by_cases hi : i < r.length
  · rw [List.getD_eq_getElem?_getD, List.getElem?_eq_getElem hi]
    intro hc
    exact h (by rw [← hc] at *; exact (hc ▸ List.getElem_mem hi))
  · rw [List.getD_eq_default _ _ (Nat.le_of_not_lt hi)]
    intro hc
    cases hc

/-- C5: with unique keys in all three normalized inputs, the two
sequential inner joins produce a table whose columns are the left
frame's columns followed by the other frames' non-key columns, whose
key columns sit at the left frame's positions, and whose rows are
counted per key by the all-three-present indicator: a key missing from
any input yields no row, a key present in all three yields exactly one
row, that row is the concatenation of the three sources' cells (all
horizons populated), and the merge introduces no `nan`. -/
theorem horizon_merger_inner_join (keys : List String) (t1 t2 t3 : Table)
    (i1 i2 i3 : List Nat) (m1 m2 : Table)
    (h1 : mapOption (colIdx t1) keys = some i1)
    (h2 : mapOption (colIdx t2) keys = some i2)
    (h3 : mapOption (colIdx t3) keys = some i3)
    (hw1 : wfB t1 = true)
    (hu1 : nodupB (t1.rows.map fun r => i1.map (getCell r)) = true)
    (hu2 : nodupB (t2.rows.map fun r => i2.map (getCell r)) = true)
    (hu3 : nodupB (t3.rows.map fun r => i3.map (getCell r)) = true)
    (hm12 : merge keys t1 t2 = some m1)
    (hm123 : merge keys m1 t3 = some m2) :
    m2.header = (t1.header ++ (nonKeyIdx keys t2).map (·.2)) ++ (nonKeyIdx keys t3).map (·.2) ∧
    mapOption (colIdx m2) keys = some i1 ∧
    (∀ k : List Val,
      List.countP (fun row => decide (i1.map (getCell row) = k)) m2.rows =
        if (k ∈ t1.rows.map fun r => i1.map (getCell r)) ∧
           (k ∈ t2.rows.map fun r => i2.map (getCell r)) ∧
           (k ∈ t3.rows.map fun r => i3.map (getCell r)) then 1 else 0) ∧
    (∀ row ∈ m2.rows, ∃ r1, r1 ∈ t1.rows ∧ ∃ r2, r2 ∈ t2.rows ∧ ∃ r3, r3 ∈ t3.rows ∧
      i1.map (getCell r1) = i2.map (getCell r2) ∧
      i1.map (getCell r1) = i3.map (getCell r3) ∧
      row = (r1 ++ (nonKeyIdx keys t2).map fun p => getCell r2 p.1) ++
        (nonKeyIdx keys t3).map fun p => getCell r3 p.1) ∧
    ((∀ r ∈ t1.rows, Val.nan ∉ r) → (∀ r ∈ t2.rows, Val.nan ∉ r) →
      (∀ r ∈ t3.rows, Val.nan ∉ r) → ∀ row ∈ m2.rows, Val.nan ∉ row) := by
  -- explicit forms of the two merge results
  simp only [merge, h1, h2] at hm12
  have hm1 := (Option.some.inj hm12).symm
  have hm1head : m1.header = t1.header ++ (nonKeyIdx keys t2).map (·.2) := by rw [hm1]
  have hm1rows : m1.rows = t1.rows.flatMap fun r1 =>
      (t2.rows.filter fun r2 =>
        decide (i1.map (getCell r1) = i2.map (getCell r2))).map
        fun r2 => r1 ++ (nonKeyIdx keys t2).map fun p => getCell r2 p.1 := by rw [hm1]
  have hm1i : mapOption (colIdx m1) keys = some i1 := by
    apply mapOption_eq_some.mpr
    apply (mapOption_eq_some.mp h1).imp
    intro c i hci
    show idxOf? c m1.header = some i
    rw [hm1head]
    exact idxOf?_append_some hci
  simp only [merge, hm1i, h3] at hm123
  have hm2 := (Option.some.inj hm123).symm
  have hm2head : m2.header = m1.header ++ (nonKeyIdx keys t3).map (·.2) := by rw [hm2]
  have hm2rows : m2.rows = m1.rows.flatMap fun row1 =>
      (t3.rows.filter fun r3 =>
        decide (i1.map (getCell row1) = i3.map (getCell r3))).map
        fun r3 => row1 ++ (nonKeyIdx keys t3).map fun p => getCell r3 p.1 := by rw [hm2]
  have hm2i : mapOption (colIdx m2) keys = some i1 := by
    apply mapOption_eq_some.mpr
    apply (mapOption_eq_some.mp h1).imp
    intro c i hci
    show idxOf? c m2.header = some i
    rw [hm2head, hm1head, List.append_assoc]
    exact idxOf?_append_some hci
  -- key positions are inside every t1 row
  have hi1lt : ∀ i ∈ i1, i < t1.header.length := by
    intro i hi
    obtain ⟨c, _, hc⟩ := mapOption_mem h1 i hi
    exact (idxOf?_spec hc).1
  have hkey1app : ∀ r ∈ t1.rows, ∀ x, i1.map (getCell (r ++ x)) = i1.map (getCell r) := by
    intro r hr x
    apply List.map_congr_left
    intro i hi
    exact getCell_append (by rw [wfB_spec hw1 r hr]; exact hi1lt i hi)
  -- every m1 row extends a t1 row
  have hm1mem : ∀ row1 ∈ m1.rows, ∃ r1 ∈ t1.rows, ∃ r2,
      r2 ∈ t2.rows ∧ i1.map (getCell r1) = i2.map (getCell r2) ∧
      row1 = r1 ++ (nonKeyIdx keys t2).map fun p => getCell r2 p.1 := by
    intro row1 hrow1
    rw [hm1rows] at hrow1
    obtain ⟨r1, hr1, hin⟩ := List.mem_flatMap.mp hrow1
    obtain ⟨r2, hr2f, hpost⟩ := List.mem_map.mp hin
    obtain ⟨hr2, hkeq⟩ := List.mem_filter.mp hr2f
    exact ⟨r1, hr1, r2, hr2, of_decide_eq_true hkeq, hpost.symm⟩
  have hkey1app' : ∀ row1 ∈ m1.rows, ∀ x,
      i1.map (getCell (row1 ++ x)) = i1.map (getCell row1) := by
    intro row1 hrow1 x
    obtain ⟨r1, hr1, r2, _, _, hform⟩ := hm1mem row1 hrow1
    apply List.map_congr_left
    intro i hi
    have hlen : t1.header.length ≤ row1.length := by
      rw [hform, List.length_append, wfB_spec hw1 r1 hr1]
      exact Nat.le_add_right _ _
    exact getCell_append (Nat.lt_of_lt_of_le (hi1lt i hi) hlen)
  -- counting
  refine ⟨by rw [hm2head, hm1head], hm2i, ?_, ?_, ?_⟩
  · intro k
    have hc2 : List.countP (fun row => decide (i1.map (getCell row) = k)) m2.rows =
        (List.countP (fun r => decide (i1.map (getCell r) = k)) m1.rows) *
        (List.countP (fun r => decide (i3.map (getCell r) = k)) t3.rows) := by
      rw [hm2rows]
      exact count_join m1.rows t3.rows _ _
        (fun row1 r3 => row1 ++ (nonKeyIdx keys t3).map fun p => getCell r3 p.1) k
        (fun row1 h r3 => hkey1app' row1 h _)
    have hc1 : List.countP (fun r => decide (i1.map (getCell r) = k)) m1.rows =
        (List.countP (fun r => decide (i1.map (getCell r) = k)) t1.rows) *
        (List.countP (fun r => decide (i2.map (getCell r) = k)) t2.rows) := by
      rw [hm1rows]
      exact count_join t1.rows t2.rows _ _
        (fun r1 r2 => r1 ++ (nonKeyIdx keys t2).map fun p => getCell r2 p.1) k
        (fun r1 h r2 => hkey1app r1 h _)
    have hind1 : List.countP (fun r => decide (i1.map (getCell r) = k)) t1.rows =
        if k ∈ t1.rows.map (fun r => i1.map (getCell r)) then 1 else 0 :=
      nodupB_count_rows (fun r => i1.map (getCell r)) t1.rows hu1 k
    have hind2 : List.countP (fun r => decide (i2.map (getCell r) = k)) t2.rows =
        if k ∈ t2.rows.map (fun r => i2.map (getCell r)) then 1 else 0 :=
      nodupB_count_rows (fun r => i2.map (getCell r)) t2.rows hu2 k
    have hind3 : List.countP (fun r => decide (i3.map (getCell r) = k)) t3.rows =
        if k ∈ t3.rows.map (fun r => i3.map (getCell r)) then 1 else 0 :=
      nodupB_count_rows (fun r => i3.map (getCell r)) t3.rows hu3 k
    rw [hc2, hc1, hind1, hind2, hind3]
    by_cases e1 : k ∈ t1.rows.map (fun r => i1.map (getCell r)) <;>
      by_cases e2 : k ∈ t2.rows.map (fun r => i2.map (getCell r)) <;>
        by_cases e3 : k ∈ t3.rows.map (fun r => i3.map (getCell r)) <;>
          simp [e1, e2, e3]
  · intro row hrow
    rw [hm2rows] at hrow
    obtain ⟨row1, hrow1, hin⟩ := List.mem_flatMap.mp hrow
    obtain ⟨r3, hr3f, hpost⟩ := List.mem_map.mp hin
    obtain ⟨hr3, hkeq3⟩ := List.mem_filter.mp hr3f
    obtain ⟨r1, hr1, r2, hr2, hk12, hform⟩ := hm1mem row1 hrow1
    refine ⟨r1, hr1, r2, hr2, r3, hr3, hk12, ?_, ?_⟩
    · have hk3 := of_decide_eq_true hkeq3
      have hr : i1.map (getCell row1) = i1.map (getCell r1) := by
        rw [hform]
        exact hkey1app r1 hr1 _
      rw [← hr]
      exact hk3
    · rw [← hpost, hform]
  · intro hn1 hn2 hn3 row hrow
    rw [hm2rows] at hrow
    obtain ⟨row1, hrow1, hin⟩ := List.mem_flatMap.mp hrow
    obtain ⟨r3, hr3f, hpost⟩ := List.mem_map.mp hin
    obtain ⟨hr3, _⟩ := List.mem_filter.mp hr3f
    obtain ⟨r1, hr1, r2, hr2, _, hform⟩ := hm1mem row1 hrow1
    rw [← hpost, hform]
    intro hmem
    rcases List.mem_append.mp hmem with hmem | hmem
    · rcases List.mem_append.mp hmem with hmem | hmem
      · exact hn1 r1 hr1 hmem
      · obtain ⟨p, _, hp⟩ := List.mem_map.mp hmem
        exact getCell_ne_nan (hn2 r2 hr2) p.1 hp
    · obtain ⟨p, _, hp⟩ := List.mem_map.mp hmem
      exact getCell_ne_nan (hn3 r3 hr3) p.1 hp

/-- Witness for C5 at three one-key frames sharing key 1. -/
theorem horizon_merger_inner_join_witness :
    List.countP (fun row => decide (List.map (getCell row) [0] = [Val.num 1]))
      c5m2.rows = 1 := by
  have h := (horizon_merger_inner_join ["K"] c5t1 c5t2 c5t3 [0] [0] [0] c5m1 c5m2
    (by decide) (by decide) (by decide) (by decide) (by decide) (by decide)
    (by decide) (by decide) (by decide)).2.2.1 [Val.num 1]
  rw [h]
  decide


theorem idxOf?_append_right {c : String} {l1 : List String} (h : c ∉ l1)
    (l2 : List String) :
    idxOf? c (l1 ++ l2) = (idxOf? c l2).map (· + l1.length) := by
  induction l1 with
  | nil => simp
  | cons a l1 ih =>
    have ha : a ≠ c := fun hh => h (hh ▸ List.mem_cons_self a l1)
    have h2 : c ∉ l1 := fun hh => h (List.mem_cons_of_mem a hh)
    show idxOf? c (a :: (l1 ++ l2)) = _
    simp only [idxOf?, ha, if_false, ih h2, Option.map_map]
    cases idxOf? c l2 with
    | none => rfl
    | some j =>
      simp only [Option.map_some', Function.comp, List.length_cons]
      congr 1

theorem idxOf?_eraseIdx {c : String} :
    ∀ {l : List String} {m iI : Nat}, idxOf? c l = some m →
      (∀ d, l.getD iI d ≠ c) →
      idxOf? c (l.eraseIdx iI) = some (if m < iI then m else m - 1) := by
  intro l
  induction l with
  | nil => intro m iI h; cases h
  | cons a l ih =>
    intro m iI h hne
    cases iI with
    | zero =>
      have ha : a ≠ c := by simpa using hne ""
      simp only [idxOf?, ha, if_false, Option.map_eq_some'] at h
      obtain ⟨j, hj, rfl⟩ := h
      show idxOf? c l = some (if j + 1 < 0 then j + 1 else j + 1 - 1)
      simpa using hj
    | succ iI =>
      by_cases ha : a = c
      · simp only [idxOf?, ha, if_true] at h
        cases h
        show idxOf? c (a :: l.eraseIdx iI) = some (if 0 < iI + 1 then 0 else 0 - 1)
        simp [idxOf?, ha]
      · simp only [idxOf?, ha, if_false, Option.map_eq_some'] at h
        obtain ⟨j, hj, rfl⟩ := h
        have hne' : ∀ d, l.getD iI d ≠ c := fun d => by simpa using hne d
        have hrec := ih hj hne'
        have hji : j ≠ iI := by
          intro hh
          exact hne' "" (hh ▸ (idxOf?_spec hj).2 "")
        show idxOf? c (a :: l.eraseIdx iI) = _
        simp only [idxOf?, ha, if_false, hrec, Option.map_some']
        congr 1
        by_cases hlt : j < iI
        · rw [if_pos hlt, if_pos (by omega)]
        · rw [if_neg hlt, if_neg (by omega)]
          omega

theorem getCell_eraseIdx (r : List Val) (i j : Nat) :
    getCell (r.eraseIdx i) j = if j < i then getCell r j else getCell r (j + 1) := by
  unfold getCell
  rw [List.getD_eq_getElem?_getD, List.getElem?_eraseIdx]
  by_cases h : j < i
  · rw [if_pos h, if_pos h, List.getD_eq_getElem?_getD]
  · rw [if_neg h, if_neg h, List.getD_eq_getElem?_getD]

theorem take_eraseIdx {n i : Nat} (h : n ≤ i) (l : List α) :
    (l.eraseIdx i).take n = l.take n := by
  apply List.ext_getElem?
  intro m
  rw [List.getElem?_take, List.getElem?_take]
  by_cases hm : m < n
  · rw [if_pos hm, if_pos hm, List.getElem?_eraseIdx, if_pos (by omega)]
  · rw [if_neg hm, if_neg hm]

theorem getCell_append_right (a b : List Val) (n : Nat) :
    getCell (a ++ b) (a.length + n) = getCell b n := by
  unfold getCell
  rw [List.getD_append_right _ _ _ _ (Nat.le_add_right _ _)]
  congr 1
  omega

theorem mem_firstDedupAcc [DecidableEq α] :
    ∀ (l acc : List α) (x : α),
      x ∈ firstDedupAcc acc l ↔ (x ∈ l ∧ x ∉ acc) := by
  intro l
  induction l with
  | nil => intro acc x; simp [firstDedupAcc]
  | cons a l ih =>
    intro acc x
    by_cases ha : a ∈ acc
    · rw [show firstDedupAcc acc (a :: l) = firstDedupAcc acc l from by
        rw [firstDedupAcc, if_pos ha], ih]
      constructor
      · rintro ⟨h1, h2⟩
        exact ⟨List.mem_cons_of_mem a h1, h2⟩
      · rintro ⟨h1, h2⟩
        rcases List.mem_cons.mp h1 with rfl | h1
        · exact absurd ha h2
        · exact ⟨h1, h2⟩
    · rw [show firstDedupAcc acc (a :: l) = a :: firstDedupAcc (a :: acc) l from by
        rw [firstDedupAcc, if_neg ha]]
      rw [List.mem_cons, ih]
      constructor
      · rintro (rfl | ⟨h1, h2⟩)
        · exact ⟨List.mem_cons_self _ _, ha⟩
        · exact ⟨List.mem_cons_of_mem a h1, fun hc => h2 (List.mem_cons_of_mem a hc)⟩
      · rintro ⟨h1, h2⟩
        rcases List.mem_cons.mp h1 with rfl | h1
        · exact Or.inl rfl
        · by_cases hxa : x = a
          · exact Or.inl hxa
          · refine Or.inr ⟨h1, fun hc => ?_⟩
            rcases List.mem_cons.mp hc with h | h
            · exact hxa h
            · exact h2 h

theorem nodup_firstDedupAcc [DecidableEq α] :
    ∀ (l acc : List α), (firstDedupAcc acc l).Nodup := by
  intro l
  induction l with
  | nil => intro acc; exact List.nodup_nil
  | cons a l ih =>
    intro acc
    by_cases ha : a ∈ acc
    · rw [show firstDedupAcc acc (a :: l) = firstDedupAcc acc l from by
        rw [firstDedupAcc, if_pos ha]]
      exact ih acc
    · rw [show firstDedupAcc acc (a :: l) = a :: firstDedupAcc (a :: acc) l from by
        rw [firstDedupAcc, if_neg ha]]
      refine List.Nodup.cons ?_ (ih (a :: acc))
      intro hmem
      exact ((mem_firstDedupAcc l (a :: acc) a).mp hmem).2 (List.mem_cons_self _ _)

theorem mem_firstDedup [DecidableEq α] (l : List α) (x : α) :
    x ∈ firstDedup l ↔ x ∈ l := by
  rw [firstDedup, mem_firstDedupAcc]
  simp

theorem nodup_firstDedup [DecidableEq α] (l : List α) : (firstDedup l).Nodup :=
  nodup_firstDedupAcc l []

theorem forall₂_map_eq {R : α → β → Prop} {f : β → α} :
    ∀ {l1 : List α} {l2 : List β}, List.Forall₂ R l1 l2 →
      (∀ a b, a ∈ l1 → R a b → f b = a) → l2.map f = l1 := by
  intro l1 l2 h
  induction h with
  | nil => intro _; rfl
  | cons hab htail ih =>
    intro hf
    rw [List.map_cons, hf _ _ (List.mem_cons_self _ _) hab,
      ih fun a b ha hr => hf a b (List.mem_cons_of_mem _ ha) hr]

theorem nodupB_spec [DecidableEq α] : ∀ {l : List α}, nodupB l = true → l.Nodup := by
  intro l
  induction l with
  | nil => intro _; exact List.nodup_nil
  | cons a l ih =>
    intro h
    rw [nodupB, Bool.and_eq_true] at h
    exact List.Nodup.cons (by simpa using h.1) (ih h.2)

theorem not_mem_eraseIdx_of_nodup {c : String} :
    ∀ {l : List String} {i : Nat}, l.Nodup → idxOf? c l = some i →
      c ∉ l.eraseIdx i := by
  intro l
  induction l with
  | nil => intro i _ h; cases h
  | cons a l ih =>
    intro i hnd h
    by_cases ha : a = c
    · simp only [idxOf?, ha, if_true] at h
      cases h
      show c ∉ l
      subst ha
      exact (List.nodup_cons.mp hnd).1
    · simp only [idxOf?, ha, if_false, Option.map_eq_some'] at h
      obtain ⟨j, hj, rfl⟩ := h
      show c ∉ a :: l.eraseIdx j
      intro hc
      rcases List.mem_cons.mp hc with rfl | hc2
      · exact ha rfl
      · exact ih (List.nodup_cons.mp hnd).2 hj hc2

theorem mem_enum_of_idxOf? {c : String} {l : List String} {i : Nat}
    (h : idxOf? c l = some i) : ((i, c) : Nat × String) ∈ l.enum := by
  rw [List.mem_enum_iff_getElem?]
  obtain ⟨hlt, hget⟩ := idxOf?_spec h
  rw [List.getElem?_eq_getElem hlt]
  have := hget ""
  rw [List.getD_eq_getElem?_getD, List.getElem?_eq_getElem hlt] at this
  simpa using this

theorem idxOf?_of_mem_enum_nodup {l : List String} (hnd : l.Nodup) {i : Nat}
    {c : String} (h : ((i, c) : Nat × String) ∈ l.enum) :
    idxOf? c l = some i := by
  rw [List.mem_enum_iff_getElem?] at h
  have hi : i < l.length := by
    by_contra hge
    rw [List.getElem?_eq_none (Nat.le_of_not_lt hge)] at h
    cases h
  have hic : l[i] = c := by
    rw [List.getElem?_eq_getElem hi] at h
    exact Option.some.inj h
  have hc : c ∈ l := hic ▸ List.getElem_mem hi
  cases he : idxOf? c l with
  | none => exact absurd hc (idxOf?_eq_none_iff.mp he)
  | some m =>
    obtain ⟨hm, hgm⟩ := idxOf?_spec he
    have hlm : l[m] = c := by
      have := hgm ""
      rw [List.getD_eq_getElem?_getD, List.getElem?_eq_getElem hm] at this
      simpa using this
    have : m = i := (List.Nodup.getElem_inj_iff hnd).mp (hlm.trans hic.symm)
    rw [this]

theorem row_take_key {kj ms : List Val} {iI : Nat} (hk : kj.length = 3)
    (hiI : 3 ≤ iI) : ((kj ++ ms).eraseIdx iI).take 3 = kj := by
  rw [take_eraseIdx hiI, ← hk, List.take_left]

/-- C4 (Granularity Aggregator): on a table whose header holds the
three grouping keys at positions `ki` and has no duplicate column
names, `granularity_aggregate` — the
`.groupby(['Pricing Location','Date','Delivery Hour']).mean().reset_index()`
then `.drop(columns='Interval')` step of `create_hourly_energy_data`
and `create_hourly_OR_data` — succeeds with a table that has no
Interval column; whose rows are exactly one per distinct
(Pricing Location, Date, Delivery Hour) key tuple of the input, in
first-occurrence order, the key tuple standing in the first three
cells; and whose every non-key column holds the arithmetic mean of
that group's values, summed over exactly the group's rows and divided
by the group's own row count — so a full 12-interval block yields
mean(v1..v12) and a partial hour with k rows divides by k, not by a
fixed 12. -/
theorem granularity_aggregator_mean (t h : Table) (ki : List Nat)
    (hki : mapOption (colIdx t) hourlyKeys = some ki)
    (hnd : nodupB t.header = true)
    (hga : granularity_aggregate t = some h) :
    "Interval" ∉ h.header ∧
    h.rows.map (fun r => r.take 3) =
      firstDedup (t.rows.map fun r => ki.map (getCell r)) ∧
    (h.rows.map (fun r => r.take 3)).Nodup ∧
    (∀ k, k ∈ h.rows.map (fun r => r.take 3) ↔
      ∃ r, r ∈ t.rows ∧ k = ki.map (getCell r)) ∧
    ∀ c ci j qs, c ∉ hourlyKeys → c ≠ "Interval" →
      colIdx t c = some ci → j < h.rows.length →
      mapOption numOf
        ((t.rows.filter fun r =>
            decide (ki.map (getCell r) = (h.rows.getD j []).take 3)).map
          fun r => getCell r ci) = some qs →
      cellAt h c j = some (Val.num (qs.sum / qs.length)) := by
  have hbind : ∃ g, groupbyMean hourlyKeys t = some g ∧
      dropCol g "Interval" = some h := by
    rw [granularity_aggregate] at hga
    cases hgb : groupbyMean hourlyKeys t with
    | none => rw [hgb] at hga; exact Option.noConfusion hga
    | some g => rw [hgb] at hga; exact ⟨g, rfl, hga⟩
  obtain ⟨g, hgb, hdrop⟩ := hbind
  simp only [groupbyMean, hki] at hgb
  split at hgb
  · rename_i rows heq
    cases Option.some.inj hgb
    rw [dropCol] at hdrop
    obtain ⟨iI, hiI, hh⟩ := Option.map_eq_some'.mp hdrop
    subst hh
    rw [colIdx] at hiI
    set other : List (Nat × String) :=
      t.header.enum.filter (fun p => !(hourlyKeys.contains p.2)) with hother
    set gks : List (List Val) :=
      firstDedup (t.rows.map fun r => ki.map (getCell r)) with hgks
    have hIdx : idxOf? "Interval" (hourlyKeys ++ other.map fun x => x.2)
        = (idxOf? "Interval" (other.map fun x => x.2)).map (· + 3) := by
      have h1 : ("Interval" : String) ∉ hourlyKeys := by decide
      simpa using idxOf?_append_right h1 (other.map fun x => x.2)
    clear hga hgb hdrop
    dsimp only at hiI ⊢
    rw [hIdx, Option.map_eq_some'] at hiI
    obtain ⟨poI, hpoI, hiIeq⟩ := hiI
    subst hiIeq
    have hkl : ki.length = 3 := mapOption_length hki
    have hklen : ∀ k ∈ gks, k.length = 3 := by
      intro k hk
      rw [hgks] at hk
      obtain ⟨r, hr, rfl⟩ := List.mem_map.mp ((mem_firstDedup _ k).mp hk)
      rw [List.length_map, hkl]
    have hndh : t.header.Nodup := nodupB_spec hnd
    have hothsub : (other.map fun x => x.2).Sublist t.header := by
      have h1 : other.Sublist t.header.enum := by
        rw [hother]; exact List.filter_sublist _
      have h2 := h1.map Prod.snd
      rw [List.enum_map_snd] at h2
      exact h2
    have hothnp : ∀ c ∈ (other.map fun x => x.2), c ∉ hourlyKeys := by
      intro c hc
      obtain ⟨p, hp, rfl⟩ := List.mem_map.mp hc
      rw [hother] at hp
      have h3 := (List.mem_filter.mp hp).2
      simpa using h3
    have hhdrnd : (hourlyKeys ++ (other.map fun x => x.2)).Nodup := by
      rw [List.nodup_append]
      refine ⟨by decide, hndh.sublist hothsub, ?_⟩
      intro a ha hb
      exact hothnp a hb ha
    have hIni : idxOf? "Interval" (hourlyKeys ++ (other.map fun x => x.2))
        = some (poI + 3) := by
      rw [hIdx, hpoI]
      rfl
    have ha : "Interval" ∉
        (hourlyKeys ++ (other.map fun x => x.2)).eraseIdx (poI + 3) :=
      not_mem_eraseIdx_of_nodup hhdrnd hIni
    have hb : List.map (fun r => List.take 3 r)
        (List.map (fun r => r.eraseIdx (poI + 3)) rows) = gks := by
      rw [List.map_map]
      refine forall₂_map_eq (mapOption_eq_some.mp heq) ?_
      intro k row hk hF
      obtain ⟨ms, hms, hrow⟩ := Option.map_eq_some'.mp hF
      subst hrow
      show ((k ++ ms).eraseIdx (poI + 3)).take 3 = k
      exact row_take_key (hklen k hk) (Nat.le_add_left 3 poI)
    have hc : (List.map (fun r => List.take 3 r)
        (List.map (fun r => r.eraseIdx (poI + 3)) rows)).Nodup := by
      rw [hb, hgks]
      exact nodup_firstDedup _
    have hd : ∀ k, k ∈ List.map (fun r => List.take 3 r)
        (List.map (fun r => r.eraseIdx (poI + 3)) rows) ↔
        ∃ r ∈ t.rows, k = List.map (getCell r) ki := by
      intro k
      rw [hb, hgks, mem_firstDedup, List.mem_map]
      constructor
      · rintro ⟨r, hr, rfl⟩
        exact ⟨r, hr, rfl⟩
      · rintro ⟨r, hr, rfl⟩
        exact ⟨r, hr, rfl⟩
    refine ⟨ha, hb, hc, hd, ?_⟩
    intro c ci j qs hcK hcI hci hqsj hqs
    rw [List.length_map] at hqsj
    have hjg : j < gks.length := by
      rw [← mapOption_length heq]
      exact hqsj
    have hFj := mapOption_getD heq j hjg [] []
    obtain ⟨msj, hmsj, hrowj⟩ := Option.map_eq_some'.mp hFj
    have hkjmem : gks.getD j [] ∈ gks := getD_mem [] hjg
    have hkjlen : (gks.getD j []).length = 3 := hklen _ hkjmem
    have htake : List.take 3
        ((List.map (fun r => r.eraseIdx (poI + 3)) rows).getD j [])
        = gks.getD j [] := by
      rw [getD_map hqsj [] [], ← hrowj]
      exact row_take_key hkjlen (Nat.le_add_left 3 poI)
    rw [htake] at hqs
    have hcmem : c ∈ (other.map fun x => x.2) := by
      have hpair : ((ci, c) : Nat × String) ∈ t.header.enum :=
        mem_enum_of_idxOf? hci
      have hpin : ((ci, c) : Nat × String) ∈ other := by
        rw [hother, List.mem_filter]
        exact ⟨hpair, by simpa using hcK⟩
      exact List.mem_map.mpr ⟨(ci, c), hpin, rfl⟩
    obtain ⟨po, hpo⟩ := Option.isSome_iff_exists.mp (idxOf?_isSome_of_mem hcmem)
    have hciH : idxOf? c (hourlyKeys ++ (other.map fun x => x.2))
        = some (po + 3) := by
      rw [idxOf?_append_right hcK, hpo]
      rfl
    have hpone : po + 3 ≠ poI + 3 := by
      intro hcontra
      have h1 := (idxOf?_spec hciH).2 ""
      have h2 := (idxOf?_spec hIni).2 ""
      rw [hcontra] at h1
      exact hcI (h1.symm.trans h2)
    have hgne : ∀ d, (hourlyKeys ++ (other.map fun x => x.2)).getD (poI + 3) d ≠ c := by
      intro d hdd
      exact hcI (hdd.symm.trans ((idxOf?_spec hIni).2 d))
    have hciErase : idxOf? c
        ((hourlyKeys ++ (other.map fun x => x.2)).eraseIdx (poI + 3))
        = some (if po + 3 < poI + 3 then po + 3 else po + 3 - 1) :=
      idxOf?_eraseIdx hciH hgne
    have hcell : ∀ ms : List Val,
        getCell (((gks.getD j []) ++ ms).eraseIdx (poI + 3))
          (if po + 3 < poI + 3 then po + 3 else po + 3 - 1)
        = getCell ms po := by
      intro ms
      by_cases hlt : po + 3 < poI + 3
      · rw [if_pos hlt, getCell_eraseIdx, if_pos hlt]
        have h3 : po + 3 = (gks.getD j []).length + po := by
          rw [hkjlen]
          omega
        rw [h3, getCell_append_right]
      · have hgt : poI + 3 < po + 3 :=
          Nat.lt_of_le_of_ne (Nat.le_of_not_lt hlt) (Ne.symm hpone)
        rw [if_neg hlt, getCell_eraseIdx, if_neg (by omega)]
        have h3 : po + 3 - 1 + 1 = (gks.getD j []).length + po := by
          rw [hkjlen]
          omega
        rw [h3, getCell_append_right]
    have hpoLen : po < other.length := by
      have h4 := (idxOf?_spec hpo).1
      rwa [List.length_map] at h4
    have hmean := mapOption_getD hmsj po hpoLen ((0 : Nat), "") (Val.num 0)
    dsimp only at hmean
    have hp2 : (other.getD po ((0 : Nat), "")).2 = c := by
      have h5 := (idxOf?_spec hpo).2 ""
      rwa [getD_map hpoLen "" ((0 : Nat), "")] at h5
    have hp1 : (other.getD po ((0 : Nat), "")).1 = ci := by
      have hpmem : other.getD po ((0 : Nat), "") ∈ other := getD_mem _ hpoLen
      have hpenum : other.getD po ((0 : Nat), "") ∈ t.header.enum := by
        rw [hother] at hpmem
        exact (List.mem_filter.mp hpmem).1
      have hpenum2 : ((other.getD po ((0 : Nat), "")).1, c) ∈ t.header.enum := by
        rw [← hp2]
        exact hpenum
      have h6 := idxOf?_of_mem_enum_nodup hndh hpenum2
      exact Option.some.inj (h6.symm.trans hci)
    rw [hp1] at hmean
    rw [meanVal, hqs, Option.map_some'] at hmean
    rw [show cellAt
        { header := (hourlyKeys ++ List.map (fun x => x.2) other).eraseIdx (poI + 3),
          rows := List.map (fun r => r.eraseIdx (poI + 3)) rows } c j
      = (idxOf? c ((hourlyKeys ++ (other.map fun x => x.2)).eraseIdx (poI + 3))).map
          (fun i => getCell ((List.map (fun r => r.eraseIdx (poI + 3)) rows).getD j []) i)
      from rfl, hciErase, Option.map_some', getD_map hqsj [] [], ← hrowj]
    have hfin : getCell (((gks.getD j []) ++ msj).eraseIdx (poI + 3))
        (if po + 3 < poI + 3 then po + 3 else po + 3 - 1)
        = Val.num (qdivNat (qsum qs) qs.length) := by
      rw [hcell msj]
      exact (Option.some.inj hmean).symm
    rw [hfin, qdivNat_eq, qsum_eq]
  · exact Option.noConfusion hgb

/-- Witness for C4: on `c4t` (a 2-row hour and a 1-row hour) the
aggregator divides by 2 and by 1 respectively and drops the Interval
column, giving exactly `c4h`. -/
theorem granularity_aggregator_mean_witness :
    mapOption (colIdx c4t) hourlyKeys = some [0, 1, 2] ∧
    nodupB c4t.header = true ∧
    granularity_aggregate c4t = some c4h ∧
    ("Interval" ∉ c4h.header ∧
     c4h.rows.map (fun r => r.take 3) =
       firstDedup (c4t.rows.map fun r => [0, 1, 2].map (getCell r)) ∧
     (c4h.rows.map (fun r => r.take 3)).Nodup ∧
     (∀ k, k ∈ c4h.rows.map (fun r => r.take 3) ↔
       ∃ r, r ∈ c4t.rows ∧ k = [0, 1, 2].map (getCell r)) ∧
     ∀ c ci j qs, c ∉ hourlyKeys → c ≠ "Interval" →
       colIdx c4t c = some ci → j < c4h.rows.length →
       mapOption numOf
         ((c4t.rows.filter fun r =>
             decide (([0, 1, 2] : List Nat).map (getCell r) =
               (c4h.rows.getD j []).take 3)).map
           fun r => getCell r ci) = some qs →
       cellAt c4h c j = some (Val.num (qs.sum / qs.length))) :=
  ⟨by decide, by decide, by decide,
   granularity_aggregator_mean c4t c4h [0, 1, 2] (by decide) (by decide)
     (by decide)⟩

end Ieso
